import Mathlib

/-!
Verification of the bottlenose request-engine core.

This file shallowly embeds the Python sources of the repository:

* `bottlenose/api.py`: `quote_query`, `Call._call_api`, `Call.__call__`
  (cache interposition, rate limiting, retry loop, gzip decode, parsing)
* `bottlenose/amazon.py`: `AmazonCall.api_url`, `AmazonCall.cache_url`,
  `AmazonCall.__call__` (the `Style` validation), `SERVICE_DOMAINS`.

Modelling conventions:

* Byte strings are `List Nat` (each element < 256 where it matters).
* Python dictionaries are association lists `List (String × String)`;
  assignment `d[k] = v` is `dinsert`, which replaces in place or appends.
* Wall-clock readings are explicit parameters: `api_url` receives the
  already-formatted UTC timestamp string that `time.strftime("%Y-%m-%dT%H:%M:%SZ",
  time.gmtime())` would produce; `cache_url` receives the same reading but its
  body never consults it, exactly as the source never reads the clock there.
  The two `time.time()` readings of the throttle block are rationals in `World`.
* Effects (cache reads and writes, sleeps, shared-state mutation, network
  attempts, error-handler consultations) are recorded in an event trace.
* External collaborators (the network, the gzip decompressor, the cache
  hooks, the error handler, the parser) are oracle functions in the
  configuration or the `World`.
-/

/-! ## Percent-encoding (`urllib.parse.quote`) and `quote_query` (api.py, lines 27-32) -/

/-- Python's `urllib.parse.quote` never escapes ASCII letters, digits,
and the four characters `_`, `.`, `-`, `~` (the `_ALWAYS_SAFE` set). -/
def alwaysSafeByte (b : Nat) : Bool :=
  (65 ≤ b && b ≤ 90) || (97 ≤ b && b ≤ 122) || (48 ≤ b && b ≤ 57) ||
  b == 95 || b == 46 || b == 45 || b == 126

/-- Uppercase hexadecimal digit, as emitted by `urllib.parse.quote`. -/
def hexDigitChar (n : Nat) : Char :=
  if n < 10 then Char.ofNat (48 + n) else Char.ofNat (55 + n)

/-- Escape one byte as `%XY`. -/
def percentByte (b : Nat) : String :=
  String.mk ['%', hexDigitChar (b / 16), hexDigitChar (b % 16)]

/-- Quote a single byte: pass it through when it is in the safe set
(the always-safe characters plus the caller-supplied `safe` ones),
escape it otherwise. -/
def quoteByte (safeExtra : List Nat) (b : Nat) : String :=
  if alwaysSafeByte b || safeExtra.contains b then String.mk [Char.ofNat b]
  else percentByte b

/-- UTF-8 encoding of one character (the standard algorithm, written with
explicit division and remainder on code points). -/
def utf8Char (c : Char) : List Nat :=
  let n := c.toNat
  if n < 128 then [n]
  else if n < 2048 then [192 + n / 64, 128 + n % 64]
  else if n < 65536 then [224 + n / 4096, 128 + (n / 64) % 64, 128 + n % 64]
  else [240 + n / 262144, 128 + (n / 4096) % 64, 128 + (n / 64) % 64, 128 + n % 64]

/-- UTF-8 bytes of a string (Python's `str.encode('utf-8')`). -/
def utf8Str (s : String) : List Nat :=
  s.data.flatMap utf8Char

/-- Percent-encode a byte string (`urllib.parse.quote` applied to `bytes`). -/
def pyQuoteBytes (safeExtra : List Nat) (bs : List Nat) : String :=
  String.join (bs.map (quoteByte safeExtra))

/-- Percent-encode a text string: UTF-8 encode, then quote each byte
(`urllib.parse.quote` applied to `str`). -/
def pyQuote (safeExtra : List Nat) (s : String) : String :=
  pyQuoteBytes safeExtra (utf8Str s)

/-- Python's `"&".join(...)`. -/
def joinAmp : List String → String
  | [] => ""
  | [x] => x
  | x :: y :: xs => x ++ "&" ++ joinAmp (y :: xs)

/-- Lexicographic comparison of character lists by Unicode code point, the
order Python uses to compare `str` values. -/
def charListLe : List Char → List Char → Bool
  | [], _ => true
  | _ :: _, [] => false
  | a :: as, b :: bs => decide (a.toNat < b.toNat) || (a == b && charListLe as bs)

/-- Codepoint-lexicographic string comparison (Python's `<=` on `str`). -/
def strLe (a b : String) : Bool := charListLe a.data b.data

/-- Sort a list of keys in ascending codepoint-lexicographic order, the order
Python's `sorted` uses on `str` (both sorts are stable, so they agree). -/
def sortKeys (ks : List String) : List String :=
  ks.insertionSort (fun a b => strLe a b = true)

/-- Lookup in an association list, defaulting to the empty string; `query[k]`
for `k` drawn from the dictionary's own keys. -/
def lookupD (q : List (String × String)) (k : String) : String :=
  (q.lookup k).getD ""

/-- Embedding of `quote_query` (api.py lines 27-32): keys in sorted order,
each value percent-encoded with `safe='~'` (which adds nothing beyond the
always-safe set), keys left unencoded, pairs joined with `&`. -/
def quote_query (q : List (String × String)) : String :=
  joinAmp ((sortKeys (q.map Prod.fst)).map fun k => k ++ "=" ++ pyQuote [126] (lookupD q k))


/-! ## SHA-256, HMAC-SHA256, base64 (the `hashlib.sha256`, `hmac`, `base64.b64encode`
collaborators used by `AmazonCall.api_url`) -/

/-- Truncate to a 32-bit word. -/
def w32 (n : Nat) : Nat := n % 4294967296

/-- Bitwise complement of a 32-bit word. -/
def not32 (n : Nat) : Nat := 4294967295 ^^^ n

/-- Right-rotation of a 32-bit word. -/
def rotr32 (x k : Nat) : Nat := x / 2 ^ k + x % 2 ^ k * 2 ^ (32 - k)

def sha256K : List Nat :=
  [1116352408, 1899447441, 3049323471, 3921009573, 961987163,
   1508970993, 2453635748, 2870763221, 3624381080, 310598401,
   607225278, 1426881987, 1925078388, 2162078206, 2614888103,
   3248222580, 3835390401, 4022224774, 264347078, 604807628,
   770255983, 1249150122, 1555081692, 1996064986, 2554220882,
   2821834349, 2952996808, 3210313671, 3336571891, 3584528711,
   113926993, 338241895, 666307205, 773529912, 1294757372,
   1396182291, 1695183700, 1986661051, 2177026350, 2456956037,
   2730485921, 2820302411, 3259730800, 3345764771, 3516065817,
   3600352804, 4094571909, 275423344, 430227734, 506948616,
   659060556, 883997877, 958139571, 1322822218, 1537002063,
   1747873779, 1955562222, 2024104815, 2227730452, 2361852424,
   2428436474, 2756734187, 3204031479, 3329325298]

def sha256H0 : List Nat :=
  [1779033703, 3144134277, 1013904242, 2773480762,
   1359893119, 2600822924, 528734635, 1541459225]

/-- Split a list into chunks of `n` elements. -/
def chunksOf (n : Nat) (l : List α) : List (List α) :=
  match n, l with
  | _, [] => []
  | 0, _ :: _ => []
  | n + 1, a :: as => (a :: as).take (n + 1) :: chunksOf (n + 1) ((a :: as).drop (n + 1))
termination_by l.length
decreasing_by
  simp only [List.length_drop, List.length_cons]
  omega

/-- Big-endian bytes of `n`, `k` bytes wide. -/
def natToBytesBE (k n : Nat) : List Nat :=
  (List.range k).map fun i => n / 256 ^ (k - 1 - i) % 256

/-- Big-endian 32-bit words from bytes. -/
def bytesToWords (bs : List Nat) : List Nat :=
  (chunksOf 4 bs).map fun c => c.foldl (fun acc b => acc * 256 + b) 0

def smallSigma0 (x : Nat) : Nat := rotr32 x 7 ^^^ rotr32 x 18 ^^^ x >>> 3

def smallSigma1 (x : Nat) : Nat := rotr32 x 17 ^^^ rotr32 x 19 ^^^ x >>> 10

def bigSigma0 (x : Nat) : Nat := rotr32 x 2 ^^^ rotr32 x 13 ^^^ rotr32 x 22

def bigSigma1 (x : Nat) : Nat := rotr32 x 6 ^^^ rotr32 x 11 ^^^ rotr32 x 25

/-- Extend the 16 message-schedule words of a block to 64. -/
def extendW (ws : List Nat) : List Nat :=
  (List.range 64).foldl
    (fun acc i =>
      if i < 16 then acc ++ [ws.getD i 0]
      else acc ++ [w32 (acc.getD (i - 16) 0 + smallSigma0 (acc.getD (i - 15) 0) +
                        acc.getD (i - 7) 0 + smallSigma1 (acc.getD (i - 2) 0))])
    []

/-- One SHA-256 compression step over a 64-byte block. -/
def compressBlock (h : List Nat) (block : List Nat) : List Nat :=
  let ws := extendW (bytesToWords block)
  let fin := (List.range 64).foldl
    (fun st i =>
      let a := st.getD 0 0
      let b := st.getD 1 0
      let c := st.getD 2 0
      let d := st.getD 3 0
      let e := st.getD 4 0
      let f := st.getD 5 0
      let g := st.getD 6 0
      let hh := st.getD 7 0
      let ch := e &&& f ^^^ not32 e &&& g
      let t1 := w32 (hh + bigSigma1 e + ch + sha256K.getD i 0 + ws.getD i 0)
      let maj := a &&& b ^^^ a &&& c ^^^ b &&& c
      let t2 := w32 (bigSigma0 a + maj)
      [w32 (t1 + t2), a, b, c, w32 (d + t1), e, f, g])
    h
  List.zipWith (fun x y => w32 (x + y)) h fin

/-- SHA-256 padding: `0x80`, zeros to 56 mod 64, then the 64-bit big-endian
bit length. -/
def sha256Pad (ms : List Nat) : List Nat :=
  let L := ms.length
  ms ++ [128] ++ List.replicate ((64 + 56 - (L + 1) % 64) % 64) 0 ++
    natToBytesBE 8 (8 * L)

/-- SHA-256 of a byte string, as a 32-byte string. -/
def sha256Bytes (ms : List Nat) : List Nat :=
  ((chunksOf 64 (sha256Pad ms)).foldl compressBlock sha256H0).flatMap (natToBytesBE 4)

/-- HMAC-SHA256 (`hmac.new(key, msg, sha256).digest()`): block size 64; a key
longer than one block is first hashed; the key is zero-padded and XORed with
the inner and outer pads. -/
def hmacSha256 (key msg : List Nat) : List Nat :=
  let k0 := if 64 < key.length then sha256Bytes key else key
  let kp := k0 ++ List.replicate (64 - k0.length) 0
  sha256Bytes ((kp.map (· ^^^ 0x5c)) ++ sha256Bytes ((kp.map (· ^^^ 0x36)) ++ msg))

def b64Alphabet : List Char :=
  "ABCDEFGHIJKLMNOPQRSTUVWXYZabcdefghijklmnopqrstuvwxyz0123456789+/".data

/-- One base64 output byte. -/
def b64Enc (i : Nat) : Nat := (b64Alphabet.getD i 'A').toNat

/-- Standard base64 of a byte string (`base64.b64encode`), producing the
ASCII bytes of the encoding, with `=` (byte 61) padding. -/
def b64encode (bs : List Nat) : List Nat :=
  (chunksOf 3 bs).flatMap fun c =>
    match c with
    | [a, b, c3] => [b64Enc (a / 4), b64Enc (a % 4 * 16 + b / 16),
                     b64Enc (b % 16 * 4 + c3 / 64), b64Enc (c3 % 64)]
    | [a, b] => [b64Enc (a / 4), b64Enc (a % 4 * 16 + b / 16), b64Enc (b % 16 * 4), 61]
    | [a] => [b64Enc (a / 4), b64Enc (a % 4 * 16), 61, 61]
    | _ => []

/-! ## Amazon URL builders (amazon.py) -/

/-- The `SERVICE_DOMAINS` table of amazon.py (region, API host, XSLT host). -/
def SERVICE_DOMAINS : List (String × String × String) :=
  [("CA", "webservices.amazon.ca", "xml-ca.amznxslt.com"),
   ("CN", "webservices.amazon.cn", "xml-cn.amznxslt.com"),
   ("DE", "webservices.amazon.de", "xml-de.amznxslt.com"),
   ("ES", "webservices.amazon.es", "xml-es.amznxslt.com"),
   ("FR", "webservices.amazon.fr", "xml-fr.amznxslt.com"),
   ("IN", "webservices.amazon.in", "xml-in.amznxslt.com"),
   ("IT", "webservices.amazon.it", "xml-it.amznxslt.com"),
   ("JP", "webservices.amazon.co.jp", "xml-jp.amznxslt.com"),
   ("UK", "webservices.amazon.co.uk", "xml-uk.amznxslt.com"),
   ("US", "webservices.amazon.com", "xml-us.amznxslt.com"),
   ("BR", "webservices.amazon.com.br", "xml-br.amznxslt.com"),
   ("MX", "webservices.amazon.com.mx", "xml-mx.amznxslt.com")]

/-- The lookup `SERVICE_DOMAINS[region][0]`; `none` models Python's `KeyError`. -/
def serviceDomain0 (region : String) : Option String :=
  (SERVICE_DOMAINS.lookup region).map Prod.fst

/-- Configuration fields of an `AmazonCall` relevant to URL building.
The associate tag is `Option` because the source tests its truthiness;
an empty-string tag is falsy in Python and is modelled separately below. -/
structure AmazonCfg where
  aws_access_key_id : String
  aws_secret_access_key : String
  associate_tag : Option String
  version : String
  region : String
  operation : String

/-- Python dictionary assignment `d[k] = v` on an association list: replace
the value in place when the key is present, append otherwise. -/
def dinsert (k v : String) (d : List (String × String)) : List (String × String) :=
  if d.any (fun p => p.1 == k) then d.map (fun p => if p.1 == k then (k, v) else p)
  else d ++ [(k, v)]

/-- Python's `dict.update`: assign each pair in turn. -/
def dupdate (d kvs : List (String × String)) : List (String × String) :=
  kvs.foldl (fun acc p => dinsert p.1 p.2 acc) d

/-- The query dictionary built by `AmazonCall.api_url` (amazon.py lines 73-87):
base entries, then `query.update(kwargs)`, then the access key and a fresh
`Timestamp` are assigned (overriding any caller-supplied values), then the
associate tag when it is truthy. `ts` is the formatted current UTC time. -/
def amazonQuery (cfg : AmazonCfg) (ts : String) (kwargs : List (String × String)) :
    List (String × String) :=
  let q0 := [("Operation", cfg.operation), ("Service", "AWSECommerceService"),
             ("Timestamp", ts), ("Version", cfg.version)]
  let q1 := dupdate q0 kwargs
  let q2 := dinsert "AWSAccessKeyId" cfg.aws_access_key_id q1
  let q3 := dinsert "Timestamp" ts q2
  match cfg.associate_tag with
  | some tag => if tag = "" then q3 else dinsert "AssociateTag" tag q3
  | none => q3

/-- Embedding of `AmazonCall.api_url` (amazon.py lines 71-108). `ts` is the
formatted current UTC time (the source reads the clock twice through
`time.strftime`; both reads are modelled as the same instant). The signature
is percent-encoded with the default `safe='/'` of `parse.quote`. -/
def api_url (cfg : AmazonCfg) (ts : String) (kwargs : List (String × String)) :
    Option String :=
  match serviceDomain0 cfg.region with
  | none => none
  | some service_domain =>
    let quoted_strings := quote_query (amazonQuery cfg ts kwargs)
    let data := "GET\n" ++ service_domain ++ "\n/onca/xml\n" ++ quoted_strings
    let digest := hmacSha256 (utf8Str cfg.aws_secret_access_key) (utf8Str data)
    let signature := pyQuoteBytes [47] (b64encode digest)
    some ("https://" ++ service_domain ++ "/onca/xml?" ++ quoted_strings ++
          "&Signature=" ++ signature)

/-- Embedding of `AmazonCall.cache_url` (amazon.py lines 110-121). The first
argument `_ts` is the current clock reading at call time; the source body
never consults the clock, which is why the binder is unused. -/
def cache_url (cfg : AmazonCfg) (_ts : String) (kwargs : List (String × String)) :
    Option String :=
  match serviceDomain0 cfg.region with
  | none => none
  | some service_domain =>
    let query := dupdate [("Operation", cfg.operation),
                          ("Service", "AWSECommerceService"),
                          ("Version", cfg.version)] kwargs
    some ("https://" ++ service_domain ++ "/onca/xml?" ++ quote_query query)

/-- Reference signing function written from the specification's words
(section 4.2): HMAC using SHA-256 over the UTF-8 bytes of
`METHOD + "\n" + HOST + "\n" + PATH + "\n" + canonical_query` keyed by the
secret key, base64-encode the raw digest bytes, percent-encode the base64
text for URL embedding. -/
def sign_spec (method host path canonical_query : String) (secret_key : List Nat) : String :=
  pyQuoteBytes [47] (b64encode (hmacSha256 secret_key
    (utf8Str (method ++ "\n" ++ host ++ "\n" ++ path ++ "\n" ++ canonical_query))))

/-! ## The request engine (api.py, class `Call`) -/

/-- A network response as seen by `Call.__call__`: the `Content-Encoding`
header (absent, or a header string) and the raw body bytes. -/
structure NetResponse where
  contentEncoding : Option String
  body : List Nat
deriving DecidableEq

/-- The dictionary passed to the error handler (api.py lines 118-120):
the exception (as an abstract error code) plus the `err_env` entries. -/
structure ErrEnv where
  exception : Nat
  api_url : String
  cache_url : String

/-- Observable effects of one invocation, recorded in order of occurrence. -/
inductive Ev where
  | buildCacheUrl (url : String)
  | cacheRead (url : String)
  | buildApiUrl (url : String)
  | sleep (wait : ℚ)
  | setLast (t : ℚ)
  | netAttempt (url : String) (attempt : Nat)
  | handlerCall (attempt : Nat)
  | cacheWrite (url : String) (body : List Nat)
deriving DecidableEq

/-- The configuration held by a `Call` object (api.py lines 36-82) as far as
the engine consults it. The cache writer returns nothing, so only its
presence is recorded; its invocation is an event in the trace. -/
structure CallCfg where
  max_qps : Option ℚ
  parser : Option (List Nat → List Nat)
  cache_reader : Option (String → Option (List Nat))
  cache_writer : Bool
  error_handler : Option (ErrEnv → Bool)
  max_retries : Nat

/-- The external world of one invocation: the network outcome per attempt
number, the gzip decompressor, the two `time.time()` readings of the throttle
block, and the formatted UTC timestamp `time.strftime` would produce. -/
structure World where
  net : Nat → Except Nat NetResponse
  gunzip : List Nat → List Nat
  nowWait : ℚ
  nowSet : ℚ
  ts : String

/-- Embedding of `Call._maybe_parse` (api.py lines 90-94). -/
def maybeParse (cfg : CallCfg) (response_text : List Nat) : List Nat :=
  match cfg.parser with
  | some p => p response_text
  | none => response_text

/-- Embedding of the retry loop of `Call._call_api` (api.py lines 96-122),
starting at attempt number `attempt` (the source starts at 1). On failure the
error propagates unless an error handler exists, the attempt count is within
`max_retries`, and the handler returns true. -/
def call_api_from (cfg : CallCfg) (net : Nat → Except Nat NetResponse)
    (apiUrl cacheUrl : String) (attempt : Nat) : Except Nat NetResponse × List Ev :=
  match net attempt with
  | .ok r => (.ok r, [.netAttempt apiUrl attempt])
  | .error e =>
    match cfg.error_handler with
    | none => (.error e, [.netAttempt apiUrl attempt])
    | some handler =>
      if h : cfg.max_retries < attempt then (.error e, [.netAttempt apiUrl attempt])
      else if handler ⟨e, apiUrl, cacheUrl⟩ then
        let rest := call_api_from cfg net apiUrl cacheUrl (attempt + 1)
        (rest.1, .netAttempt apiUrl attempt :: .handlerCall attempt :: rest.2)
      else (.error e, [.netAttempt apiUrl attempt, .handlerCall attempt])
termination_by cfg.max_retries + 1 - attempt
decreasing_by omega

/-- The throttle block of `Call.__call__` (api.py lines 134-143). Python
truthiness is explicit: the block is skipped when `max_qps` is `None` or zero;
the wait is computed only when the shared cell holds a truthy (non-`None`,
nonzero) previous time; the cell is then set to a fresh clock reading.
Returns the emitted events and the new cell value. -/
def throttle (cfg : CallCfg) (w : World) (last0 : Option ℚ) : List Ev × Option ℚ :=
  match cfg.max_qps with
  | none => ([], last0)
  | some qps =>
    if qps = 0 then ([], last0)
    else
      let waitEvs :=
        match last0 with
        | none => []
        | some t =>
          if t = 0 then []
          else
            let wait_time := 1 / qps - (w.nowWait - t)
            if 0 < wait_time then [Ev.sleep wait_time] else []
      (waitEvs ++ [Ev.setLast w.nowSet], some w.nowSet)

/-- Python substring test `needle in hay`. -/
def strContains (hay needle : String) : Bool := decide (needle.data <:+: hay.data)

/-- The gzip test of api.py line 150, `content_encoding and "gzip" in
content_encoding`: a missing header and an empty header string are falsy. -/
def gzipDeclared : Option String → Bool
  | none => false
  | some ce => (!(ce == "")) && strContains ce "gzip"

/-- The part of `Call.__call__` after the cache gate (api.py lines 132-160):
build the request URL, throttle, perform the network call with retries,
gzip-decode if declared, write the cache when a writer exists, parse.
`evPre` is the trace accumulated by the cache gate. -/
def invokeNet (cfg : CallCfg) (cacheUrl apiUrl : String) (w : World) (last0 : Option ℚ)
    (evPre : List Ev) : Except Nat (List Nat) × List Ev × Option ℚ :=
  let evPre2 := evPre ++ [Ev.buildApiUrl apiUrl]
  let t := throttle cfg w last0
  let c := call_api_from cfg w.net apiUrl cacheUrl 1
  match c.1 with
  | .error e => (.error e, evPre2 ++ t.1 ++ c.2, t.2)
  | .ok resp =>
    let response_text :=
      if gzipDeclared resp.contentEncoding then w.gunzip resp.body else resp.body
    let evW := if cfg.cache_writer then [Ev.cacheWrite cacheUrl response_text] else []
    (.ok (maybeParse cfg response_text), evPre2 ++ t.1 ++ c.2 ++ evW, t.2)

/-- Embedding of `Call.__call__` (api.py lines 124-160). The cache key is
computed first; when a cache reader exists it is consulted, and a non-`None`
result short-circuits everything else. Returns the result, the event trace,
and the final value of the shared last-query-time cell. -/
def invoke (cfg : CallCfg) (cacheUrl apiUrl : String) (w : World) (last0 : Option ℚ) :
    Except Nat (List Nat) × List Ev × Option ℚ :=
  match cfg.cache_reader with
  | some reader =>
    match reader cacheUrl with
    | some cached_response_text =>
      (.ok (maybeParse cfg cached_response_text),
       [Ev.buildCacheUrl cacheUrl, Ev.cacheRead cacheUrl], last0)
    | none => invokeNet cfg cacheUrl apiUrl w last0
        [Ev.buildCacheUrl cacheUrl, Ev.cacheRead cacheUrl]
  | none => invokeNet cfg cacheUrl apiUrl w last0 [Ev.buildCacheUrl cacheUrl]

/-- Errors surfacing from an `AmazonCall` invocation. -/
inductive PyErr where
  | http (code : Nat)
  | amazonError
  | keyError
deriving DecidableEq

/-- Embedding of `AmazonCall.__call__` (amazon.py lines 123-128) composed with
the engine: the `Style` validation raises `AmazonError` before any other step;
an unknown region raises `KeyError` out of the URL builders before any hook
runs; otherwise the invocation proceeds exactly as `Call.__call__`. (The
request URL is passed in eagerly here; `invoke` places its construction event
at the position of the source's line 132, and both URL builders are pure.) -/
def amazonInvoke (acfg : AmazonCfg) (cfg : CallCfg) (kwargs : List (String × String))
    (w : World) (last0 : Option ℚ) : Except PyErr (List Nat) × List Ev × Option ℚ :=
  if kwargs.any (fun p => p.1 == "Style") then (.error .amazonError, [], last0)
  else
    match cache_url acfg w.ts kwargs, api_url acfg w.ts kwargs with
    | some cu, some au =>
      match invoke cfg cu au w last0 with
      | (.ok v, tr, l) => (.ok v, tr, l)
      | (.error e, tr, l) => (.error (.http e), tr, l)
    | _, _ => (.error .keyError, [], last0)

/-! ## Trace-order predicates -/

/-- Every event satisfying `p` occurs strictly before every event satisfying
`q`: from the first `q`-event onward, no `p`-event occurs. -/
def allBefore (p q : Ev → Bool) (tr : List Ev) : Bool :=
  (tr.dropWhile (fun e => !q e)).all (fun e => !p e)

def isBuildCacheEv : Ev → Bool
  | .buildCacheUrl _ => true
  | _ => false

def isCacheReadEv : Ev → Bool
  | .cacheRead _ => true
  | _ => false

def isBuildApiEv : Ev → Bool
  | .buildApiUrl _ => true
  | _ => false

def isSleepEv : Ev → Bool
  | .sleep _ => true
  | _ => false

def isSetLastEv : Ev → Bool
  | .setLast _ => true
  | _ => false

/-- Rate-limiter activity: a wait or the shared-state update. -/
def isRateEv (e : Ev) : Bool := isSleepEv e || isSetLastEv e

def isNetEv : Ev → Bool
  | .netAttempt _ _ => true
  | _ => false

def isCacheWriteEv : Ev → Bool
  | .cacheWrite _ _ => true
  | _ => false

def isHandlerEv : Ev → Bool
  | .handlerCall _ => true
  | _ => false

/-! ## Auxiliary definitions for the claim statements -/

/-- The invocation is not served from cache: either no reader is configured,
or the configured reader returns `None` for this cache key. -/
def cacheMiss (cfg : CallCfg) (cacheUrl : String) : Prop :=
  ∀ r, cfg.cache_reader = some r → r cacheUrl = none

/-- One position of the fixed `strftime` format `%Y-%m-%dT%H:%M:%SZ`:
either a decimal digit or a fixed literal character. -/
inductive TSlot where
  | digit
  | lit (c : Char)

/-- The shape of `time.strftime("%Y-%m-%dT%H:%M:%SZ", time.gmtime())` output:
four digits, `-`, two digits, `-`, two digits, `T`, two digits, `:`, two
digits, `:`, two digits, `Z`. -/
def tsPattern : List TSlot :=
  [.digit, .digit, .digit, .digit, .lit '-', .digit, .digit, .lit '-',
   .digit, .digit, .lit 'T', .digit, .digit, .lit ':', .digit, .digit,
   .lit ':', .digit, .digit, .lit 'Z']

def slotMatch : TSlot → Char → Bool
  | .digit, c => decide (48 ≤ c.toNat) && decide (c.toNat ≤ 57)
  | .lit c0, c => c == c0

def matchesPat : List TSlot → List Char → Bool
  | [], [] => true
  | s :: ps, c :: cs => slotMatch s c && matchesPat ps cs
  | _, _ => false

/-- The string is a well-formed formatted UTC timestamp as produced at some
wall-clock instant by the `strftime` call in `AmazonCall.api_url`. -/
def isTsFormat (s : String) : Bool := matchesPat tsPattern s.data

/-- Per-character percent-encoding (for ASCII text, `pyQuote` with
`safe='~'` acts character by character through this function). -/
def qchar (c : Char) : String := quoteByte [126] c.toNat

/-- The value encoder exactly as claim C5 words it: `~` is left unescaped
and every other non-alphanumeric byte is escaped. (The source also leaves
`-`, `.` and `_` unescaped, so this differs from `pyQuote [126]`.) -/
def claimQuoteC5 (s : String) : String :=
  String.join ((utf8Str s).map fun b =>
    if (48 ≤ b && b ≤ 57) || (65 ≤ b && b ≤ 90) || (97 ≤ b && b ≤ 122) || b == 126
    then String.mk [Char.ofNat b] else percentByte b)

/-- A fixed demonstration world: the network always fails with code 7. -/
def wDemo : World :=
  { net := fun _ => .error 7, gunzip := fun b => b.drop 1,
    nowWait := 10, nowSet := 11, ts := "2014-08-01T00:00:00Z" }

/-- A demonstration world whose network succeeds on every attempt with a
plain (not gzip-encoded) body. -/
def wOk : World :=
  { net := fun _ => .ok { contentEncoding := none, body := [5, 6] },
    gunzip := fun b => b.drop 1, nowWait := 10, nowSet := 11,
    ts := "2014-08-01T00:00:00Z" }

/-- A demonstration world whose network succeeds with a gzip-declared body;
its `gunzip` drops the first byte, standing in for real gzip decompression. -/
def wGz : World :=
  { net := fun _ => .ok { contentEncoding := some "gzip", body := [0, 1, 2] },
    gunzip := fun b => b.drop 1, nowWait := 10, nowSet := 11,
    ts := "2014-08-01T00:00:00Z" }

/-- A demonstration cache reader: hits (with an empty body) exactly on the
key `"k"`. -/
def readerDemo : String → Option (List Nat) := fun u => if u == "k" then some [] else none

/-- A `Call` configuration with a cache reader that hits on `"k"`. -/
def cfgHit : CallCfg :=
  { max_qps := some 1, parser := none, cache_reader := some readerDemo,
    cache_writer := true, error_handler := none, max_retries := 5 }

/-- A `Call` configuration with an always-retry error handler and 3 retries. -/
def cfgRetry : CallCfg :=
  { max_qps := none, parser := none, cache_reader := none,
    cache_writer := false, error_handler := some (fun _ => true), max_retries := 3 }

/-- A minimal `Call` configuration: no hooks, no throttling. -/
def cfgPlain : CallCfg :=
  { max_qps := none, parser := none, cache_reader := none,
    cache_writer := false, error_handler := none, max_retries := 5 }

/-- A `Call` configuration with throttling (1 query per second) and a cache
writer but no reader. -/
def cfgQps : CallCfg :=
  { max_qps := some 1, parser := none, cache_reader := none,
    cache_writer := true, error_handler := none, max_retries := 5 }

/-- A demonstration Amazon configuration. -/
def acfgDemo : AmazonCfg :=
  { aws_access_key_id := "AKIDEXAMPLE", aws_secret_access_key := "SECRETKEY",
    associate_tag := some "mytag-20", version := "2013-08-01",
    region := "US", operation := "ItemSearch" }

/-- The demonstration Amazon configuration with different credentials and
associate tag but identical region, version and operation. -/
def acfgDemo2 : AmazonCfg :=
  { aws_access_key_id := "OTHERKEY", aws_secret_access_key := "OTHERSECRET",
    associate_tag := none, version := "2013-08-01",
    region := "US", operation := "ItemSearch" }

/-! ## Helper lemmas -/

theorem charToNat_inj {a b : Char} (h : a.toNat = b.toNat) : a = b :=
  Char.eq_of_val_eq (UInt32.ext h)

theorem charListLe_total : ∀ as bs, charListLe as bs = true ∨ charListLe bs as = true
  | [], _ => Or.inl rfl
  | _ :: _, [] => Or.inr rfl
  | a :: as, b :: bs => by
      rcases Nat.lt_trichotomy a.toNat b.toNat with h | h | h
      · left; simp [charListLe, h]
      · rcases charListLe_total as bs with ih | ih
        · left; simp [charListLe, charToNat_inj h, ih]
        · right; simp [charListLe, charToNat_inj h, ih]
      · right; simp [charListLe, h]

theorem charListLe_trans : ∀ as bs cs, charListLe as bs = true →
    charListLe bs cs = true → charListLe as cs = true
  | [], _, _ => by intro _ _; rfl
  | a :: as, [], _ => by intro h; simp [charListLe] at h
  | _ :: _, _ :: _, [] => by intro _ h; simp [charListLe] at h
  | a :: as, b :: bs, c :: cs => by
      intro h1 h2
      simp only [charListLe, Bool.or_eq_true, Bool.and_eq_true, decide_eq_true_eq,
        beq_iff_eq] at h1 h2 ⊢
      rcases h1 with h1 | ⟨rfl, h1⟩
      · rcases h2 with h2 | ⟨rfl, _⟩
        · exact Or.inl (Nat.lt_trans h1 h2)
        · exact Or.inl h1
      · rcases h2 with h2 | ⟨rfl, h2⟩
        · exact Or.inl h2
        · exact Or.inr ⟨rfl, charListLe_trans as bs cs h1 h2⟩

theorem charListLe_antisymm : ∀ as bs, charListLe as bs = true →
    charListLe bs as = true → as = bs
  | [], [] => by intro _ _; rfl
  | [], _ :: _ => by intro _ h; simp [charListLe] at h
  | _ :: _, [] => by intro h _; simp [charListLe] at h
  | a :: as, b :: bs => by
      intro h1 h2
      simp only [charListLe, Bool.or_eq_true, Bool.and_eq_true, decide_eq_true_eq,
        beq_iff_eq] at h1 h2
      rcases h1 with h1 | ⟨rfl, h1⟩
      · rcases h2 with h2 | ⟨rfl, _⟩
        · exact absurd (Nat.lt_trans h1 h2) (Nat.lt_irrefl _)
        · exact absurd h1 (Nat.lt_irrefl _)
      · rcases h2 with h2 | ⟨_, h2⟩
        · exact absurd h2 (Nat.lt_irrefl _)
        · rw [charListLe_antisymm as bs h1 h2]

theorem strLe_total (a b : String) : strLe a b = true ∨ strLe b a = true :=
  charListLe_total a.data b.data

theorem strLe_trans {a b c : String} (h1 : strLe a b = true) (h2 : strLe b c = true) :
    strLe a c = true :=
  charListLe_trans a.data b.data c.data h1 h2

theorem strLe_antisymm {a b : String} (h1 : strLe a b = true) (h2 : strLe b a = true) :
    a = b := by
  cases a; cases b
  exact congrArg String.mk (charListLe_antisymm _ _ h1 h2)

instance : IsTotal String (fun a b => strLe a b = true) := ⟨strLe_total⟩

instance : IsTrans String (fun a b => strLe a b = true) := ⟨fun _ _ _ => strLe_trans⟩

instance : IsAntisymm String (fun a b => strLe a b = true) := ⟨fun _ _ => strLe_antisymm⟩

example : quote_query [("b", "2"), ("a", "1 x")] = "a=1%20x&b=2" := by decide

example : quote_query [("k", "a.b-c_d~e")] = "k=a.b-c_d~e" := by decide

theorem strExt {s t : String} (h : s.data = t.data) : s = t := by
  cases s; cases t; exact congrArg String.mk h

/-! ## C1: cache-hit short circuit -/

/-- C1: whenever a cache reader is configured and returns a non-`None` value
(an empty body included) for the computed cache key, `Call.__call__` returns
the parser applied to the cached body (the raw body when no parser is
configured), the trace records only the cache-key construction and the cache
read — no rate-limiter wait, no shared-state mutation, no request-URL
construction, no network attempt, no cache write — and the shared
last-query-time cell is left untouched. -/
theorem cacheHit_shortCircuit (cfg : CallCfg) (cu au : String) (w : World)
    (last0 : Option ℚ) (reader : String → Option (List Nat)) (body : List Nat)
    (hr : cfg.cache_reader = some reader) (hb : reader cu = some body) :
    invoke cfg cu au w last0 =
      (.ok (maybeParse cfg body), [Ev.buildCacheUrl cu, Ev.cacheRead cu], last0) := by
  simp [invoke, hr, hb]

/-- Witness for C1 at a concrete input whose cached body is empty (the miss
sentinel is `None`, not emptiness). -/
theorem cacheHit_shortCircuit_witness :
    cfgHit.cache_reader = some readerDemo ∧ readerDemo "k" = some [] ∧
    invoke cfgHit "k" "a" wDemo (some 1) =
      (.ok (maybeParse cfgHit []), [Ev.buildCacheUrl "k", Ev.cacheRead "k"], some 1) :=
  ⟨rfl, rfl, cacheHit_shortCircuit cfgHit "k" "a" wDemo (some 1) readerDemo [] rfl rfl⟩

/-! ## C7: the `Style` validation -/

/-- C7: when the invocation parameters contain the disallowed key `Style`,
`AmazonCall.__call__` raises `AmazonError` synchronously: the result is that
error, the trace is empty (no cache-key construction, no cache hook, no
rate-limiter activity, no network attempt), and the shared state is
untouched. -/
theorem style_raises_before_effects (acfg : AmazonCfg) (cfg : CallCfg)
    (kwargs : List (String × String)) (w : World) (last0 : Option ℚ)
    (hs : kwargs.any (fun p => p.1 == "Style") = true) :
    amazonInvoke acfg cfg kwargs w last0 = (.error .amazonError, [], last0) := by
  simp [amazonInvoke, hs]

/-- Witness for C7 at a concrete input. -/
theorem style_raises_before_effects_witness :
    ([("Style", "bold"), ("Keywords", "lean")].any (fun p => p.1 == "Style") = true) ∧
    amazonInvoke acfgDemo cfgHit [("Style", "bold"), ("Keywords", "lean")] wDemo (some 1) =
      (.error .amazonError, [], some 1) :=
  ⟨by decide,
   style_raises_before_effects acfgDemo cfgHit [("Style", "bold"), ("Keywords", "lean")]
     wDemo (some 1) (by decide)⟩

/-! ## C10: cache keys are credential-independent -/

/-- C10: for identical region, version, operation and parameters, the cache
URL is identical for clients that differ in access key, secret key, or
associate tag (and it does not depend on the clock reading either): the
cache key omits all credential material. -/
theorem cacheUrl_credential_independent (c1 c2 : AmazonCfg) (ts1 ts2 : String)
    (kwargs : List (String × String))
    (hv : c1.version = c2.version) (hr : c1.region = c2.region)
    (ho : c1.operation = c2.operation) :
    cache_url c1 ts1 kwargs = cache_url c2 ts2 kwargs := by
  simp [cache_url, hv, hr, ho]

/-- Witness for C10: two clients with different credentials and tags share
the cache key. -/
theorem cacheUrl_credential_independent_witness :
    acfgDemo.version = acfgDemo2.version ∧ acfgDemo.region = acfgDemo2.region ∧
    acfgDemo.operation = acfgDemo2.operation ∧
    cache_url acfgDemo "t1" [("Keywords", "lean")] =
      cache_url acfgDemo2 "t2" [("Keywords", "lean")] :=
  ⟨rfl, rfl, rfl,
   cacheUrl_credential_independent acfgDemo acfgDemo2 "t1" "t2" [("Keywords", "lean")]
     rfl rfl rfl⟩

/-! ## C4: the request signature -/

theorem signData_assoc (sd qs : String) :
    "GET\n" ++ sd ++ "\n/onca/xml\n" ++ qs =
      "GET" ++ "\n" ++ sd ++ "\n" ++ "/onca/xml" ++ "\n" ++ qs := by
  apply strExt
  have h1 : ("GET\n" : String).data = ['G', 'E', 'T', '\n'] := rfl
  have h2 : ("\n/onca/xml\n" : String).data =
    ['\n', '/', 'o', 'n', 'c', 'a', '/', 'x', 'm', 'l', '\n'] := rfl
  have h3 : ("GET" : String).data = ['G', 'E', 'T'] := rfl
  have h4 : ("\n" : String).data = ['\n'] := rfl
  have h5 : ("/onca/xml" : String).data = ['/', 'o', 'n', 'c', 'a', '/', 'x', 'm', 'l'] := rfl
  simp [String.data_append, h1, h2, h3, h4, h5]

/-- C4: for every Amazon request whose region is known, the request URL is
the already-sorted canonical query string followed by one final, unsorted
`Signature` parameter, whose value is exactly the specification's signing
formula: the percent-encoding of the base64 encoding of the raw HMAC-SHA256
digest, keyed by the UTF-8 secret key, of the UTF-8 bytes of
`"GET" + "\n" + host + "\n" + "/onca/xml" + "\n" + canonical_query`. The
builder is a pure function of its inputs, so the signature is identical
across runs for fixed key, host, path and canonical query. -/
theorem apiUrl_signature_spec (cfg : AmazonCfg) (ts : String)
    (kwargs : List (String × String)) (hv : String × String)
    (hreg : SERVICE_DOMAINS.lookup cfg.region = some hv) :
    api_url cfg ts kwargs =
      some ("https://" ++ hv.1 ++ "/onca/xml?" ++ quote_query (amazonQuery cfg ts kwargs) ++
            "&Signature=" ++
            sign_spec "GET" hv.1 "/onca/xml" (quote_query (amazonQuery cfg ts kwargs))
              (utf8Str cfg.aws_secret_access_key)) := by
  simp only [api_url, serviceDomain0, hreg, Option.map_some', sign_spec,
    ← signData_assoc]

/-- Witness for C4 at the concrete region `US`. -/
theorem apiUrl_signature_spec_witness :
    SERVICE_DOMAINS.lookup acfgDemo.region =
      some ("webservices.amazon.com", "xml-us.amznxslt.com") ∧
    api_url acfgDemo "2014-08-01T00:00:00Z" [("Keywords", "lean")] =
      some ("https://" ++ "webservices.amazon.com" ++ "/onca/xml?" ++
            quote_query (amazonQuery acfgDemo "2014-08-01T00:00:00Z" [("Keywords", "lean")]) ++
            "&Signature=" ++
            sign_spec "GET" "webservices.amazon.com" "/onca/xml"
              (quote_query (amazonQuery acfgDemo "2014-08-01T00:00:00Z" [("Keywords", "lean")]))
              (utf8Str acfgDemo.aws_secret_access_key)) :=
  ⟨by decide,
   apiUrl_signature_spec acfgDemo "2014-08-01T00:00:00Z" [("Keywords", "lean")]
     ("webservices.amazon.com", "xml-us.amznxslt.com") (by decide)⟩

/-! ## C2: retry bound -/

/-- C2: with an error handler that always returns true and `max_retries = 3`,
a network that fails on every attempt with error `e` makes `_call_api` issue
exactly four attempts (the initial one plus three retries) — the trace is
precisely attempts 1 to 4 with the handler consulted after attempts 1 to 3
only, never after the fourth, because its attempt count exceeds
`max_retries` — and the original error `e` then propagates unchanged. -/
theorem retry_bound_four_attempts (cfg : CallCfg) (net : Nat → Except Nat NetResponse)
    (handler : ErrEnv → Bool) (au cu : String) (e : Nat)
    (hh : cfg.error_handler = some handler) (hht : ∀ env, handler env = true)
    (hmr : cfg.max_retries = 3) (hnet : ∀ a, net a = .error e) :
    call_api_from cfg net au cu 1 =
      (.error e,
       [.netAttempt au 1, .handlerCall 1, .netAttempt au 2, .handlerCall 2,
        .netAttempt au 3, .handlerCall 3, .netAttempt au 4]) := by
  rw [call_api_from, hnet 1, hh, hmr]
  rw [call_api_from, hnet 2, hh, hmr]
  rw [call_api_from, hnet 3, hh, hmr]
  rw [call_api_from, hnet 4, hh, hmr]
  simp [hht]

/-- Witness for C2 with a concrete always-failing network and always-true
handler. -/
theorem retry_bound_four_attempts_witness :
    cfgRetry.error_handler = some (fun _ => true) ∧ cfgRetry.max_retries = 3 ∧
    call_api_from cfgRetry (fun _ => .error 7) "a" "k" 1 =
      (.error 7,
       [.netAttempt "a" 1, .handlerCall 1, .netAttempt "a" 2, .handlerCall 2,
        .netAttempt "a" 3, .handlerCall 3, .netAttempt "a" 4]) :=
  ⟨rfl, rfl,
   retry_bound_four_attempts cfgRetry (fun _ => .error 7) (fun _ => true) "a" "k" 7
     rfl (fun _ => rfl) rfl (fun _ => rfl)⟩

/-! ## C9: gzip decoding -/

/-- C9: for a successful first-attempt response (no cache reader, no parser):
when the `Content-Encoding` header declares gzip, the invocation returns the
gzip-decompression of the body — so a payload whose decompression is `orig`
decodes to exactly `orig`; when the header is absent or does not mention
gzip, the body bytes pass through unchanged. -/
theorem gzip_decode_roundtrip (cfg : CallCfg) (cu au : String) (w : World)
    (last0 : Option ℚ) (resp : NetResponse) (orig : List Nat)
    (hr : cfg.cache_reader = none) (hp : cfg.parser = none)
    (hnet : w.net 1 = .ok resp) :
    (gzipDeclared resp.contentEncoding = true → w.gunzip resp.body = orig →
      (invoke cfg cu au w last0).1 = .ok orig) ∧
    (gzipDeclared resp.contentEncoding = false →
      (invoke cfg cu au w last0).1 = .ok resp.body) := by
  have hcall : call_api_from cfg w.net au cu 1 = (.ok resp, [.netAttempt au 1]) := by
    rw [call_api_from, hnet]
  constructor
  · intro hg hd
    simp [invoke, invokeNet, hr, hp, hcall, hg, hd, maybeParse]
  · intro hg
    simp [invoke, invokeNet, hr, hp, hcall, hg, maybeParse]

/-- Witness for C9: a gzip-declared response decodes through `gunzip`, and a
response without the header passes through unchanged. -/
theorem gzip_decode_roundtrip_witness :
    gzipDeclared (some "gzip") = true ∧
    wGz.gunzip [0, 1, 2] = [1, 2] ∧
    (invoke cfgPlain "k" "a" wGz none).1 = .ok [1, 2] ∧
    gzipDeclared (none : Option String) = false ∧
    (invoke cfgPlain "k" "a" wOk none).1 = .ok [5, 6] :=
  ⟨by decide, rfl,
   (gzip_decode_roundtrip cfgPlain "k" "a" wGz none
       { contentEncoding := some "gzip", body := [0, 1, 2] } [1, 2] rfl rfl rfl).1
     (by decide) rfl,
   rfl,
   (gzip_decode_roundtrip cfgPlain "k" "a" wOk none
       { contentEncoding := none, body := [5, 6] } [] rfl rfl rfl).2 rfl⟩

/-! ## Trace helper lemmas -/

theorem allWeaken {f g : Ev → Bool} (h : ∀ e, f e = true → g e = true) :
    ∀ {l : List Ev}, l.all f = true → l.all g = true := by
  intro l hl
  simp only [List.all_eq_true] at hl ⊢
  exact fun e he => h e (hl e he)

theorem allNotOf {f g : Ev → Bool} (h : ∀ e, f e = true → g e = false) {l : List Ev}
    (hl : l.all f = true) : l.all (fun e => !g e) = true :=
  allWeaken (fun e he => by rw [h e he]; rfl) hl

theorem all_dropWhile {f p : Ev → Bool} : ∀ l : List Ev, l.all p = true →
    (l.dropWhile f).all p = true
  | [], h => h
  | e :: l, h => by
    simp only [List.all_cons, Bool.and_eq_true] at h
    by_cases hf : f e
    · simpa [List.dropWhile_cons, hf] using all_dropWhile l h.2
    · simp [List.dropWhile_cons, hf, h.1, h.2]

theorem allBefore_of_all {p q : Ev → Bool} {l : List Ev}
    (h : l.all (fun e => !p e) = true) : allBefore p q l = true :=
  all_dropWhile l h

theorem allBefore_split {p q : Ev → Bool} {x y : List Ev}
    (hx : x.all (fun e => !q e) = true) (hy : y.all (fun e => !p e) = true) :
    allBefore p q (x ++ y) = true := by
  induction x with
  | nil => simpa [allBefore] using all_dropWhile y hy
  | cons e x ih =>
    simp only [List.all_cons, Bool.and_eq_true] at hx
    have hq : q e = false := by
      cases hqe : q e
      · rfl
      · rw [hqe] at hx; exact absurd hx.1 (by decide)
    simp only [List.cons_append, allBefore, List.dropWhile_cons, hq]
    simpa [allBefore] using ih hx.2

theorem countP_zero_of_all {p : Ev → Bool} {l : List Ev}
    (h : l.all (fun e => !p e) = true) : l.countP p = 0 := by
  simp only [List.all_eq_true, Bool.not_eq_true'] at h
  simp [List.countP_eq_zero]
  intro e he
  simp [h e he]

theorem throttle_evs_rate (cfg : CallCfg) (w : World) (last0 : Option ℚ) :
    ((throttle cfg w last0).1).all isRateEv = true := by
  cases hq : cfg.max_qps with
  | none => simp [throttle, hq]
  | some qps =>
    simp only [throttle, hq]
    by_cases h0 : qps = 0
    · rw [if_pos h0]; rfl
    · rw [if_neg h0]
      cases last0 with
      | none => simp [isRateEv, isSetLastEv]
      | some t =>
        simp only []
        by_cases ht : t = 0
        · rw [if_pos ht]; simp [isRateEv, isSetLastEv]
        · rw [if_neg ht]
          by_cases hw : 0 < 1 / qps - (w.nowWait - t)
          · rw [if_pos hw]; simp [isRateEv, isSetLastEv, isSleepEv]
          · rw [if_neg hw]; simp [isRateEv, isSetLastEv]

theorem throttle_truthy (cfg : CallCfg) (w : World) (last0 : Option ℚ) (qps : ℚ)
    (hq : cfg.max_qps = some qps) (hnz : qps ≠ 0) :
    ∃ waitEvs, throttle cfg w last0 = (waitEvs ++ [Ev.setLast w.nowSet], some w.nowSet) ∧
      waitEvs.all isSleepEv = true := by
  simp only [throttle, hq]
  rw [if_neg hnz]
  cases last0 with
  | none => exact ⟨[], rfl, rfl⟩
  | some t =>
    simp only []
    by_cases ht : t = 0
    · rw [if_pos ht]; exact ⟨[], rfl, rfl⟩
    · rw [if_neg ht]
      by_cases hw : 0 < 1 / qps - (w.nowWait - t)
      · rw [if_pos hw]
        exact ⟨[Ev.sleep (1 / qps - (w.nowWait - t))], rfl, by simp [isSleepEv]⟩
      · rw [if_neg hw]; exact ⟨[], rfl, rfl⟩

theorem call_api_evs (cfg : CallCfg) (net : Nat → Except Nat NetResponse)
    (au cu : String) (a : Nat) :
    ((call_api_from cfg net au cu a).2).all (fun e => isNetEv e || isHandlerEv e) = true := by
  induction a using call_api_from.induct cfg net au cu with
  | case1 x r h => rw [call_api_from, h]; simp [isNetEv]
  | case2 x e h hh => rw [call_api_from, h]; simp [hh, isNetEv]
  | case3 x e h handler hh hlt => rw [call_api_from, h]; simp [hh, hlt, isNetEv]
  | case4 x e h handler hh hlt htrue ih =>
    rw [call_api_from, h]
    simp only [hh]
    rw [dif_neg hlt, if_pos htrue]
    simp only [List.all_cons, Bool.and_eq_true]
    exact ⟨by simp [isNetEv], by simp [isHandlerEv], ih⟩
  | case5 x e h handler hh hlt hfalse =>
    rw [call_api_from, h]; simp [hh, hlt, hfalse, isNetEv, isHandlerEv]

theorem invoke_miss_trace (cfg : CallCfg) (cu au : String) (w : World) (last0 : Option ℚ)
    (hm : cacheMiss cfg cu) :
    ∃ evR evW,
      (invoke cfg cu au w last0).2.1 =
        [Ev.buildCacheUrl cu] ++ evR ++ [Ev.buildApiUrl au] ++ (throttle cfg w last0).1 ++
          (call_api_from cfg w.net au cu 1).2 ++ evW ∧
      evR.all isCacheReadEv = true ∧ evW.all isCacheWriteEv = true ∧
      (invoke cfg cu au w last0).2.2 = (throttle cfg w last0).2 := by
  cases hr : cfg.cache_reader with
  | none =>
    cases hc : (call_api_from cfg w.net au cu 1).1 with
    | error e =>
      exact ⟨[], [], by simp [invoke, invokeNet, hr, hc], rfl, rfl,
             by simp [invoke, invokeNet, hr, hc]⟩
    | ok resp =>
      cases hw : cfg.cache_writer with
      | false =>
        exact ⟨[], [], by simp [invoke, invokeNet, hr, hc, hw], rfl, rfl,
               by simp [invoke, invokeNet, hr, hc, hw]⟩
      | true =>
        exact ⟨[], [Ev.cacheWrite cu
                 (if gzipDeclared resp.contentEncoding then w.gunzip resp.body else resp.body)],
               by simp [invoke, invokeNet, hr, hc, hw], rfl, by simp [isCacheWriteEv],
               by simp [invoke, invokeNet, hr, hc, hw]⟩
  | some r =>
    have hmiss := hm r hr
    cases hc : (call_api_from cfg w.net au cu 1).1 with
    | error e =>
      exact ⟨[Ev.cacheRead cu], [], by simp [invoke, invokeNet, hr, hmiss, hc],
             by simp [isCacheReadEv], rfl, by simp [invoke, invokeNet, hr, hmiss, hc]⟩
    | ok resp =>
      cases hw : cfg.cache_writer with
      | false =>
        exact ⟨[Ev.cacheRead cu], [], by simp [invoke, invokeNet, hr, hmiss, hc, hw],
               by simp [isCacheReadEv], rfl, by simp [invoke, invokeNet, hr, hmiss, hc, hw]⟩
      | true =>
        exact ⟨[Ev.cacheRead cu], [Ev.cacheWrite cu
                 (if gzipDeclared resp.contentEncoding then w.gunzip resp.body else resp.body)],
               by simp [invoke, invokeNet, hr, hmiss, hc, hw],
               by simp [isCacheReadEv], by simp [isCacheWriteEv],
               by simp [invoke, invokeNet, hr, hmiss, hc, hw]⟩

/-! ## C3: dispatch order -/

/-- C3 (amended): in every non-cache-hit invocation the dispatch steps occur
in the fixed order: cache-key computation, cache lookup, computation of the
request URL (with its timestamp and signature), rate limiting against the
shared state, network execution, cache write. In particular
`build_query_url` is evaluated before the rate-limiter wait completes, not
after it (api.py computes `api_url` on line 132, before the throttle block
of lines 134-143). -/
theorem dispatch_order (cfg : CallCfg) (cu au : String) (w : World) (last0 : Option ℚ)
    (hm : cacheMiss cfg cu) :
    allBefore isBuildCacheEv isCacheReadEv (invoke cfg cu au w last0).2.1 = true ∧
    allBefore isCacheReadEv isBuildApiEv (invoke cfg cu au w last0).2.1 = true ∧
    allBefore isBuildApiEv isRateEv (invoke cfg cu au w last0).2.1 = true ∧
    allBefore isRateEv isNetEv (invoke cfg cu au w last0).2.1 = true ∧
    allBefore isNetEv isCacheWriteEv (invoke cfg cu au w last0).2.1 = true := by
  obtain ⟨evR, evW, htr, hR, hW, -⟩ := invoke_miss_trace cfg cu au w last0 hm
  set T := (throttle cfg w last0).1 with hTdef
  set N := (call_api_from cfg w.net au cu 1).2 with hNdef
  have hT : T.all isRateEv = true := throttle_evs_rate cfg w last0
  have hN : N.all (fun e => isNetEv e || isHandlerEv e) = true := call_api_evs cfg w.net au cu 1
  rw [htr]
  have hRx : ∀ g : Ev → Bool, (∀ u, g (Ev.cacheRead u) = false) →
      evR.all (fun e => !g e) = true := by
    intro g hg
    refine allNotOf ?_ hR
    intro e he
    cases e <;> first | exact hg _ | (simp [isCacheReadEv] at he)
  have hWx : ∀ g : Ev → Bool, (∀ u b, g (Ev.cacheWrite u b) = false) →
      evW.all (fun e => !g e) = true := by
    intro g hg
    refine allNotOf ?_ hW
    intro e he
    cases e <;> first | exact hg _ _ | (simp [isCacheWriteEv] at he)
  have hTx : ∀ g : Ev → Bool, (∀ x, g (Ev.sleep x) = false) → (∀ x, g (Ev.setLast x) = false) →
      T.all (fun e => !g e) = true := by
    intro g h1 h2
    refine allNotOf ?_ hT
    intro e he
    cases e <;> first | exact h1 _ | exact h2 _ | (simp [isRateEv, isSleepEv, isSetLastEv] at he)
  have hNx : ∀ g : Ev → Bool, (∀ u a, g (Ev.netAttempt u a) = false) →
      (∀ a, g (Ev.handlerCall a) = false) → N.all (fun e => !g e) = true := by
    intro g h1 h2
    refine allNotOf ?_ hN
    intro e he
    cases e <;> first | exact h1 _ _ | exact h2 _ | (simp [isNetEv, isHandlerEv] at he)
  refine ⟨?_, ?_, ?_, ?_, ?_⟩
  · have ha : [Ev.buildCacheUrl cu] ++ evR ++ [Ev.buildApiUrl au] ++ T ++ N ++ evW =
        [Ev.buildCacheUrl cu] ++ (evR ++ [Ev.buildApiUrl au] ++ T ++ N ++ evW) := by
      simp [List.append_assoc]
    rw [ha]
    refine allBefore_split (by simp [isCacheReadEv]) ?_
    simp only [List.all_append, Bool.and_eq_true]
    exact ⟨⟨⟨⟨hRx _ (fun _ => rfl), by simp [isBuildCacheEv]⟩,
             hTx _ (fun _ => rfl) (fun _ => rfl)⟩,
            hNx _ (fun _ _ => rfl) (fun _ => rfl)⟩, hWx _ (fun _ _ => rfl)⟩
  · have ha : [Ev.buildCacheUrl cu] ++ evR ++ [Ev.buildApiUrl au] ++ T ++ N ++ evW =
        ([Ev.buildCacheUrl cu] ++ evR) ++ ([Ev.buildApiUrl au] ++ T ++ N ++ evW) := by
      simp [List.append_assoc]
    rw [ha]
    refine allBefore_split ?_ ?_
    · simp only [List.all_append, Bool.and_eq_true]
      exact ⟨by simp [isBuildApiEv], hRx _ (fun _ => rfl)⟩
    · simp only [List.all_append, Bool.and_eq_true]
      exact ⟨⟨⟨by simp [isCacheReadEv], hTx _ (fun _ => rfl) (fun _ => rfl)⟩,
              hNx _ (fun _ _ => rfl) (fun _ => rfl)⟩, hWx _ (fun _ _ => rfl)⟩
  · have ha : [Ev.buildCacheUrl cu] ++ evR ++ [Ev.buildApiUrl au] ++ T ++ N ++ evW =
        ([Ev.buildCacheUrl cu] ++ evR ++ [Ev.buildApiUrl au]) ++ (T ++ N ++ evW) := by
      simp [List.append_assoc]
    rw [ha]
    refine allBefore_split ?_ ?_
    · simp only [List.all_append, Bool.and_eq_true]
      exact ⟨⟨by simp [isRateEv, isSleepEv, isSetLastEv], hRx _ (fun _ => rfl)⟩,
             by simp [isRateEv, isSleepEv, isSetLastEv]⟩
    · simp only [List.all_append, Bool.and_eq_true]
      exact ⟨⟨hTx _ (fun _ => rfl) (fun _ => rfl), hNx _ (fun _ _ => rfl) (fun _ => rfl)⟩,
             hWx _ (fun _ _ => rfl)⟩
  · have ha : [Ev.buildCacheUrl cu] ++ evR ++ [Ev.buildApiUrl au] ++ T ++ N ++ evW =
        ([Ev.buildCacheUrl cu] ++ evR ++ [Ev.buildApiUrl au] ++ T) ++ (N ++ evW) := by
      simp [List.append_assoc]
    rw [ha]
    refine allBefore_split ?_ ?_
    · simp only [List.all_append, Bool.and_eq_true]
      exact ⟨⟨⟨by simp [isNetEv], hRx _ (fun _ => rfl)⟩, by simp [isNetEv]⟩,
             hTx _ (fun _ => rfl) (fun _ => rfl)⟩
    · simp only [List.all_append, Bool.and_eq_true]
      exact ⟨hNx _ (fun _ _ => rfl) (fun _ => rfl), hWx _ (fun _ _ => rfl)⟩
  · have ha : [Ev.buildCacheUrl cu] ++ evR ++ [Ev.buildApiUrl au] ++ T ++ N ++ evW =
        ([Ev.buildCacheUrl cu] ++ evR ++ [Ev.buildApiUrl au] ++ T ++ N) ++ evW := rfl
    rw [ha]
    refine allBefore_split ?_ (hWx _ (fun _ _ => rfl))
    simp only [List.all_append, Bool.and_eq_true]
    exact ⟨⟨⟨⟨by simp [isCacheWriteEv], hRx _ (fun _ => rfl)⟩, by simp [isCacheWriteEv]⟩,
            hTx _ (fun _ => rfl) (fun _ => rfl)⟩, hNx _ (fun _ _ => rfl) (fun _ => rfl)⟩

/-- Counterexample to C3 as stated: in this concrete non-cache-hit run a
rate-limiter wait occurs, yet the request URL is built before the wait, so
the claimed order (rate limiting before `build_query_url`) is false on the
code: `allBefore isRateEv isBuildApiEv` fails on the trace. -/
theorem dispatch_order_counterexample :
    (invoke cfgQps "k" "a" wOk (some (19 / 2))).2.1 =
      [Ev.buildCacheUrl "k", Ev.buildApiUrl "a", Ev.sleep (1 / 2), Ev.setLast 11,
       Ev.netAttempt "a" 1, Ev.cacheWrite "k" [5, 6]] ∧
    allBefore isRateEv isBuildApiEv (invoke cfgQps "k" "a" wOk (some (19 / 2))).2.1 = false := by
  have hcall : call_api_from cfgQps wOk.net "a" "k" 1 =
      (.ok { contentEncoding := none, body := [5, 6] }, [.netAttempt "a" 1]) := by
    rw [call_api_from]
    rfl
  have ht : throttle cfgQps wOk (some (19 / 2)) =
      ([Ev.sleep (1 / 2), Ev.setLast 11], some 11) := by
    simp only [throttle, cfgQps]
    norm_num [wOk]
  have h : invoke cfgQps "k" "a" wOk (some (19 / 2)) =
      (.ok [5, 6],
       [Ev.buildCacheUrl "k", Ev.buildApiUrl "a", Ev.sleep (1 / 2), Ev.setLast 11,
        Ev.netAttempt "a" 1, Ev.cacheWrite "k" [5, 6]], some 11) := by
    have hcr : cfgQps.cache_reader = none := rfl
    have hcw : cfgQps.cache_writer = true := rfl
    have hcp : cfgQps.parser = none := rfl
    simp [invoke, invokeNet, hcr, hcw, hcp, ht, hcall, gzipDeclared, maybeParse]
  rw [h]
  exact ⟨rfl, by decide⟩

/-! ## C8: the shared last-query-time cell -/

/-- C8 (amended): when `max_qps` is configured and nonzero, every executed
(non-cache-hit) invocation updates the shared last-query-time cell exactly
once, to the fresh clock reading taken after any required wait, and the
update event comes after every sleep; cache hits never update the cell. -/
theorem rate_state_update (cfg : CallCfg) (cu au : String) (w : World) (last0 : Option ℚ)
    (qps : ℚ) (hq : cfg.max_qps = some qps) (hnz : qps ≠ 0) :
    (cacheMiss cfg cu →
      (invoke cfg cu au w last0).2.1.countP isSetLastEv = 1 ∧
      allBefore isSleepEv isSetLastEv (invoke cfg cu au w last0).2.1 = true ∧
      (invoke cfg cu au w last0).2.2 = some w.nowSet) ∧
    (∀ r body, cfg.cache_reader = some r → r cu = some body →
      (invoke cfg cu au w last0).2.1.countP isSetLastEv = 0 ∧
      (invoke cfg cu au w last0).2.2 = last0) := by
  constructor
  · intro hm
    obtain ⟨evR, evW, htr, hR, hW, hst⟩ := invoke_miss_trace cfg cu au w last0 hm
    obtain ⟨waitEvs, hth, hwait⟩ := throttle_truthy cfg w last0 qps hq hnz
    have hth1 : (throttle cfg w last0).1 = waitEvs ++ [Ev.setLast w.nowSet] := by rw [hth]
    have hth2 : (throttle cfg w last0).2 = some w.nowSet := by rw [hth]
    rw [hth1] at htr
    have hN := call_api_evs cfg w.net au cu 1
    have hRz : evR.countP isSetLastEv = 0 := by
      refine countP_zero_of_all (allNotOf ?_ hR)
      intro e he
      cases e <;> first | rfl | (simp [isCacheReadEv] at he)
    have hWz : evW.countP isSetLastEv = 0 := by
      refine countP_zero_of_all (allNotOf ?_ hW)
      intro e he
      cases e <;> first | rfl | (simp [isCacheWriteEv] at he)
    have hwz : waitEvs.countP isSetLastEv = 0 := by
      refine countP_zero_of_all (allNotOf ?_ hwait)
      intro e he
      cases e <;> first | rfl | (simp [isSleepEv] at he)
    have hNz : ((call_api_from cfg w.net au cu 1).2).countP isSetLastEv = 0 := by
      refine countP_zero_of_all (allNotOf ?_ hN)
      intro e he
      cases e <;> first | rfl | (simp [isNetEv, isHandlerEv] at he)
    refine ⟨?_, ?_, ?_⟩
    · rw [htr]
      simp only [List.countP_append, hRz, hWz, hwz, hNz]
      simp [List.countP_cons, isSetLastEv]
    · rw [htr]
      have ha : [Ev.buildCacheUrl cu] ++ evR ++ [Ev.buildApiUrl au] ++
          (waitEvs ++ [Ev.setLast w.nowSet]) ++ (call_api_from cfg w.net au cu 1).2 ++ evW =
          ([Ev.buildCacheUrl cu] ++ evR ++ [Ev.buildApiUrl au] ++ waitEvs) ++
          ([Ev.setLast w.nowSet] ++ ((call_api_from cfg w.net au cu 1).2 ++ evW)) := by
        simp [List.append_assoc]
      rw [ha]
      refine allBefore_split ?_ ?_
      · simp only [List.all_append, Bool.and_eq_true]
        refine ⟨⟨⟨by simp [isSetLastEv], ?_⟩, by simp [isSetLastEv]⟩, ?_⟩
        · refine allNotOf ?_ hR
          intro e he
          cases e <;> first | rfl | (simp [isCacheReadEv] at he)
        · refine allNotOf ?_ hwait
          intro e he
          cases e <;> first | rfl | (simp [isSleepEv] at he)
      · simp only [List.all_append, Bool.and_eq_true]
        refine ⟨by simp [isSleepEv], ?_, ?_⟩
        · refine allNotOf ?_ hN
          intro e he
          cases e <;> first | rfl | (simp [isNetEv, isHandlerEv] at he)
        · refine allNotOf ?_ hW
          intro e he
          cases e <;> first | rfl | (simp [isCacheWriteEv] at he)
    · rw [hst, hth2]
  · intro r body hr hb
    constructor
    · simp [invoke, hr, hb, List.countP_cons, isSetLastEv]
    · simp [invoke, hr, hb]

/-- Counterexample to C8 as stated: this invocation is executed (one network
attempt occurs), yet because `max_qps` is unset the shared last-query-time
cell is never updated — no update event occurs and the cell keeps its value. -/
theorem rate_state_counterexample :
    (invoke cfgPlain "k" "a" wOk none).2.1.countP isNetEv = 1 ∧
    (invoke cfgPlain "k" "a" wOk none).2.1.countP isSetLastEv = 0 ∧
    (invoke cfgPlain "k" "a" wOk none).2.2 = none := by
  have hcall : call_api_from cfgPlain wOk.net "a" "k" 1 =
      (.ok { contentEncoding := none, body := [5, 6] }, [.netAttempt "a" 1]) := by
    rw [call_api_from]
    rfl
  have ht : throttle cfgPlain wOk none = ([], none) := rfl
  have h : invoke cfgPlain "k" "a" wOk none =
      (.ok [5, 6], [Ev.buildCacheUrl "k", Ev.buildApiUrl "a", Ev.netAttempt "a" 1], none) := by
    have hcr : cfgPlain.cache_reader = none := rfl
    have hcw : cfgPlain.cache_writer = false := rfl
    have hcp : cfgPlain.parser = none := rfl
    simp [invoke, invokeNet, hcr, hcw, hcp, ht, hcall, gzipDeclared, maybeParse]
  rw [h]
  exact ⟨by decide, by decide, rfl⟩

/-- Witness for the amended C8 at a concrete throttled run. -/
theorem rate_state_update_witness :
    cfgQps.max_qps = some 1 ∧ (1 : ℚ) ≠ 0 ∧
    (invoke cfgQps "k" "a" wOk (some (19 / 2))).2.1.countP isSetLastEv = 1 ∧
    (invoke cfgQps "k" "a" wOk (some (19 / 2))).2.2 = some 11 :=
  ⟨rfl, by decide,
   (((rate_state_update cfgQps "k" "a" wOk (some (19 / 2)) 1 rfl (by decide)).1
       (fun r h => by simp [cfgQps] at h)).1),
   (((rate_state_update cfgQps "k" "a" wOk (some (19 / 2)) 1 rfl (by decide)).1
       (fun r h => by simp [cfgQps] at h)).2.2)⟩

/-! ## C5: canonical query encoding -/

theorem lookup_eq_of_perm : ∀ {q q' : List (String × String)}, q.Perm q' →
    (q.map Prod.fst).Nodup → ∀ k, q.lookup k = q'.lookup k := by
  intro q q' hp
  induction hp with
  | nil => intro _ _; rfl
  | cons a h ih =>
    intro hn k
    simp only [List.map_cons, List.nodup_cons] at hn
    simp only [List.lookup]
    cases hak : (k == a.1)
    · simp only []
      exact ih hn.2 k
    · rfl
  | swap x y l =>
    intro hn k
    simp only [List.map_cons, List.nodup_cons] at hn
    have hxy : y.1 ≠ x.1 := by
      intro he
      exact hn.1 (by rw [he]; exact List.mem_cons_self x.1 _)
    simp only [List.lookup]
    cases h1 : (k == y.1) <;> cases h2 : (k == x.1) <;> simp only []
    exact absurd ((eq_of_beq h1).symm.trans (eq_of_beq h2)) hxy
  | trans h1 h2 ih1 ih2 =>
    intro hn k
    exact (ih1 hn k).trans (ih2 ((h1.map Prod.fst).nodup hn) k)

theorem sortKeys_sorted (l : List String) :
    List.Sorted (fun a b => strLe a b = true) (sortKeys l) :=
  List.sorted_insertionSort _ l

theorem sortKeys_perm (l : List String) : (sortKeys l).Perm l :=
  List.perm_insertionSort _ l

theorem sortKeys_eq_of_perm {l l' : List String} (h : l.Perm l') :
    sortKeys l = sortKeys l' :=
  List.eq_of_perm_of_sorted ((sortKeys_perm l).trans (h.trans (sortKeys_perm l').symm))
    (sortKeys_sorted l) (sortKeys_sorted l')

theorem quoteByte_tilde_char (b : Nat) :
    quoteByte [126] b =
      if alwaysSafeByte b then String.mk [Char.ofNat b] else percentByte b := by
  by_cases h : alwaysSafeByte b = true
  · simp [quoteByte, h]
  · have hb : b ≠ 126 := by
      intro he
      rw [he] at h
      exact h (by decide)
    simp [quoteByte, h, hb]

/-- C5 (amended): for every mapping (unique keys), `quote_query` yields the
`key=value` pairs joined by `&` with keys in strictly ascending codepoint
order; the output is deterministic and independent of insertion order
(`encode m = encode (shuffle m)`); each value is percent-encoded from its
UTF-8 string form, with the alphanumerics and exactly `~`, `-`, `.`, `_`
left unescaped (the always-safe set of `urllib.parse.quote`) and every other
byte escaped. -/
theorem quote_query_canonical (q q' : List (String × String))
    (hn : (q.map Prod.fst).Nodup) (hp : q.Perm q') :
    quote_query q = quote_query q' ∧
    List.Pairwise (fun a b => strLe a b = true ∧ a ≠ b) (sortKeys (q.map Prod.fst)) ∧
    quote_query q =
      joinAmp ((sortKeys (q.map Prod.fst)).map fun k =>
        k ++ "=" ++ pyQuote [126] (lookupD q k)) ∧
    ∀ v : String, pyQuote [126] v =
      String.join ((utf8Str v).map fun b =>
        if alwaysSafeByte b then String.mk [Char.ofNat b] else percentByte b) := by
  refine ⟨?_, ?_, rfl, ?_⟩
  · unfold quote_query
    rw [sortKeys_eq_of_perm (hp.map Prod.fst)]
    congr 1
    refine List.map_congr_left ?_
    intro k _
    rw [lookupD, lookupD, lookup_eq_of_perm hp hn k]
  · have hs := sortKeys_sorted (q.map Prod.fst)
    have hnd : (sortKeys (q.map Prod.fst)).Nodup :=
      ((sortKeys_perm (q.map Prod.fst)).symm).nodup hn
    exact List.Pairwise.and hs hnd
  · intro v
    unfold pyQuote pyQuoteBytes
    congr 1
    refine List.map_congr_left ?_
    intro b _
    exact quoteByte_tilde_char b

/-- Witness for C5 (amended): a shuffled two-entry mapping encodes to the
same sorted string. -/
theorem quote_query_canonical_witness :
    (([("b", "2"), ("a", "1 x")] : List (String × String)).map Prod.fst).Nodup ∧
    ([("b", "2"), ("a", "1 x")] : List (String × String)).Perm [("a", "1 x"), ("b", "2")] ∧
    quote_query [("b", "2"), ("a", "1 x")] = quote_query [("a", "1 x"), ("b", "2")] :=
  ⟨by decide, by decide,
   (quote_query_canonical [("b", "2"), ("a", "1 x")] [("a", "1 x"), ("b", "2")]
      (by decide) (by decide)).1⟩

/-- Counterexample to C5 as stated: the claim says only `~` (beyond
alphanumerics) is left unescaped, but the source also leaves `.` (and `-`,
`_`) unescaped: on the value `"a.b"` the code emits `k=a.b`, not the
`k=a%2Eb` the claim's encoding would produce. -/
theorem quote_query_counterexample :
    quote_query [("k", "a.b")] = "k=a.b" ∧
    claimQuoteC5 "a.b" = "a%2Eb" ∧
    quote_query [("k", "a.b")] ≠ "k=" ++ claimQuoteC5 "a.b" := by
  exact ⟨by decide, by decide, by decide⟩

/-! ## C6: timestamp-sensitivity lemmas -/

theorem data_foldl_append : ∀ (xs : List String) (a : String),
    (xs.foldl (· ++ ·) a).data = a.data ++ (xs.map String.data).flatten
  | [], a => by simp
  | x :: xs, a => by
    simp only [List.foldl_cons, List.map_cons, List.flatten_cons]
    rw [data_foldl_append xs (a ++ x), String.data_append, List.append_assoc]

theorem data_join (xs : List String) : (String.join xs).data = (xs.map String.data).flatten := by
  simpa [String.join] using data_foldl_append xs ""

theorem join_cons (x : String) (xs : List String) :
    String.join (x :: xs) = x ++ String.join xs :=
  strExt (by simp [data_join, String.data_append])

theorem flatMap_utf8_ascii : ∀ l : List Char, (∀ c ∈ l, c.toNat < 128) →
    l.flatMap utf8Char = l.map Char.toNat
  | [], _ => rfl
  | c :: l, h => by
    have hc : c.toNat < 128 := h c (List.mem_cons_self c l)
    have ih := flatMap_utf8_ascii l (fun x hx => h x (List.mem_cons_of_mem c hx))
    simp only [List.flatMap_cons, List.map_cons, ih]
    simp [utf8Char, hc]

theorem pyQuote_ascii (s : String) (h : ∀ c ∈ s.data, c.toNat < 128) :
    pyQuote [126] s = String.join (s.data.map qchar) := by
  unfold pyQuote pyQuoteBytes utf8Str
  rw [flatMap_utf8_ascii s.data h, List.map_map]
  rfl

theorem qchar_digit {c : Char} (h1 : 48 ≤ c.toNat) (h2 : c.toNat ≤ 57) :
    qchar c = String.mk [c] := by
  have hs : alwaysSafeByte c.toNat = true := by
    simp only [alwaysSafeByte, Bool.or_eq_true, Bool.and_eq_true, decide_eq_true_eq]
    omega
  simp [qchar, quoteByte, hs, Char.ofNat_toNat]

theorem matches_ascii : ∀ (pat : List TSlot) (l : List Char),
    (pat.all fun sl => match sl with
      | .digit => true
      | .lit c0 => decide (c0.toNat < 128)) = true →
    matchesPat pat l = true → ∀ c ∈ l, c.toNat < 128
  | [], [], _, _ => by intro c hc; simp at hc
  | [], c :: cs, _, hm => by simp [matchesPat] at hm
  | sl :: ps, [], _, hm => by simp [matchesPat] at hm
  | sl :: ps, c :: cs, hall, hm => by
    simp only [List.all_cons, Bool.and_eq_true] at hall
    simp only [matchesPat, Bool.and_eq_true] at hm
    intro x hx
    rcases List.mem_cons.mp hx with rfl | hx
    · cases sl with
      | digit =>
        have := hm.1
        simp only [slotMatch, Bool.and_eq_true, decide_eq_true_eq] at this
        omega
      | lit c0 =>
        have hx0 : x = c0 := by simpa [slotMatch] using hm.1
        subst hx0
        simpa using hall.1
    · exact matches_ascii ps cs hall.2 hm.2 x hx

theorem matches_quote_length : ∀ (pat : List TSlot) (l1 l2 : List Char),
    matchesPat pat l1 = true → matchesPat pat l2 = true →
    (String.join (l1.map qchar)).length = (String.join (l2.map qchar)).length
  | [], [], [], _, _ => rfl
  | [], c :: cs, _, h1, _ => by simp [matchesPat] at h1
  | [], [], c :: cs, _, h2 => by simp [matchesPat] at h2
  | sl :: ps, [], _, h1, _ => by simp [matchesPat] at h1
  | sl :: ps, c :: cs, [], _, h2 => by simp [matchesPat] at h2
  | sl :: ps, c1 :: cs1, c2 :: cs2, h1, h2 => by
    simp only [matchesPat, Bool.and_eq_true] at h1 h2
    rw [List.map_cons, List.map_cons, join_cons, join_cons, String.length_append,
        String.length_append, matches_quote_length ps cs1 cs2 h1.2 h2.2]
    congr 1
    cases sl with
    | digit =>
      have hb1 := h1.1
      have hb2 := h2.1
      simp only [slotMatch, Bool.and_eq_true, decide_eq_true_eq] at hb1 hb2
      rw [qchar_digit hb1.1 hb1.2, qchar_digit hb2.1 hb2.2]
      rfl
    | lit c0 =>
      have e1 : c1 = c0 := by simpa [slotMatch] using h1.1
      have e2 : c2 = c0 := by simpa [slotMatch] using h2.1
      rw [e1, e2]

theorem matches_quote_inj : ∀ (pat : List TSlot) (l1 l2 : List Char),
    matchesPat pat l1 = true → matchesPat pat l2 = true →
    String.join (l1.map qchar) = String.join (l2.map qchar) → l1 = l2
  | [], [], [], _, _, _ => rfl
  | [], c :: cs, _, h1, _, _ => by simp [matchesPat] at h1
  | [], [], c :: cs, _, h2, _ => by simp [matchesPat] at h2
  | sl :: ps, [], _, h1, _, _ => by simp [matchesPat] at h1
  | sl :: ps, c :: cs, [], _, h2, _ => by simp [matchesPat] at h2
  | sl :: ps, c1 :: cs1, c2 :: cs2, h1, h2, heq => by
    simp only [matchesPat, Bool.and_eq_true] at h1 h2
    rw [List.map_cons, List.map_cons, join_cons, join_cons] at heq
    cases sl with
    | digit =>
      have hb1 := h1.1
      have hb2 := h2.1
      simp only [slotMatch, Bool.and_eq_true, decide_eq_true_eq] at hb1 hb2
      rw [qchar_digit hb1.1 hb1.2, qchar_digit hb2.1 hb2.2] at heq
      have hd := congrArg String.data heq
      simp only [String.data_append] at hd
      have hc : c1 = c2 ∧
          (String.join (cs1.map qchar)).data = (String.join (cs2.map qchar)).data := by
        simpa using hd
      rw [hc.1, matches_quote_inj ps cs1 cs2 h1.2 h2.2 (strExt hc.2)]
    | lit c0 =>
      have e1 : c1 = c0 := by simpa [slotMatch] using h1.1
      have e2 : c2 = c0 := by simpa [slotMatch] using h2.1
      subst e1
      subst e2
      have hd := congrArg String.data heq
      simp only [String.data_append] at hd
      rw [matches_quote_inj ps cs1 cs2 h1.2 h2.2 (strExt (List.append_cancel_left hd))]

theorem tsQuote_len {a b : String} (ha : isTsFormat a = true) (hb : isTsFormat b = true) :
    (pyQuote [126] a).length = (pyQuote [126] b).length := by
  have hascii : (tsPattern.all fun sl => match sl with
      | TSlot.digit => true
      | TSlot.lit c0 => decide (c0.toNat < 128)) = true := by decide
  rw [pyQuote_ascii a (matches_ascii tsPattern a.data hascii ha),
      pyQuote_ascii b (matches_ascii tsPattern b.data hascii hb)]
  exact matches_quote_length tsPattern a.data b.data ha hb

theorem tsQuote_inj {a b : String} (ha : isTsFormat a = true) (hb : isTsFormat b = true)
    (hne : a ≠ b) : pyQuote [126] a ≠ pyQuote [126] b := by
  intro h
  have hascii : (tsPattern.all fun sl => match sl with
      | TSlot.digit => true
      | TSlot.lit c0 => decide (c0.toNat < 128)) = true := by decide
  rw [pyQuote_ascii a (matches_ascii tsPattern a.data hascii ha),
      pyQuote_ascii b (matches_ascii tsPattern b.data hascii hb)] at h
  exact hne (strExt (matches_quote_inj tsPattern a.data b.data ha hb h))

theorem lookup_map_replace (k v : String) : ∀ d : List (String × String),
    d.any (fun p => p.1 == k) = true →
    (d.map (fun p => if p.1 == k then (k, v) else p)).lookup k = some v
  | [], h => by simp at h
  | a :: t, h => by
    simp only [List.any_cons, Bool.or_eq_true] at h
    by_cases ha : a.1 = k
    · subst ha
      simp only [List.map_cons]
      rw [if_pos (by simp)]
      simp [List.lookup]
    · have hne : (a.1 == k) = false := beq_eq_false_iff_ne.mpr ha
      have hka : (k == a.1) = false := beq_eq_false_iff_ne.mpr (fun he => ha he.symm)
      have ht : t.any (fun p => p.1 == k) = true := by
        rcases h with h | h
        · rw [hne] at h
          cases h
        · exact h
      simp only [List.map_cons]
      rw [if_neg (by simp [hne])]
      simp only [List.lookup, hka]
      exact lookup_map_replace k v t ht

theorem lookup_append_single {k' k : String} (h : k' ≠ k) (v : String) :
    ∀ d : List (String × String), (d ++ [(k, v)]).lookup k' = d.lookup k'
  | [] => by
    have hb : (k' == k) = false := beq_eq_false_iff_ne.mpr h
    simp [List.lookup, hb]
  | a :: t => by
    simp only [List.cons_append, List.lookup]
    cases k' == a.1
    · simpa using lookup_append_single h v t
    · rfl

theorem dinsert_lookup_self (k v : String) (d : List (String × String)) :
    (dinsert k v d).lookup k = some v := by
  unfold dinsert
  by_cases h : d.any (fun p => p.1 == k) = true
  · rw [if_pos h]
    exact lookup_map_replace k v d h
  · rw [if_neg h]
    have key : ∀ d' : List (String × String), (d' ++ [(k, v)]).lookup k = some v ∨
        ∃ p ∈ d', p.1 = k := by
      intro d'
      induction d' with
      | nil => left; simp [List.lookup]
      | cons a t ih =>
        by_cases ha : k = a.1
        · right
          exact ⟨a, List.mem_cons_self a t, ha.symm⟩
        · have hka : (k == a.1) = false := beq_eq_false_iff_ne.mpr ha
          rcases ih with ih | ⟨p, hp, he⟩
          · left
            simp only [List.cons_append, List.lookup, hka]
            exact ih
          · right
            exact ⟨p, List.mem_cons_of_mem a hp, he⟩
    rcases key d with hk | ⟨p, hp, he⟩
    · exact hk
    · exact absurd (List.any_eq_true.mpr ⟨p, hp, by simp [he]⟩) h

theorem dinsert_lookup_other {k' k : String} (h : k' ≠ k) (v : String)
    (d : List (String × String)) :
    (dinsert k v d).lookup k' = d.lookup k' := by
  unfold dinsert
  by_cases hd : d.any (fun p => p.1 == k) = true
  · rw [if_pos hd]
    clear hd
    induction d with
    | nil => rfl
    | cons a t ih =>
      by_cases ha : a.1 = k
      · have h1 : (k' == a.1) = false := beq_eq_false_iff_ne.mpr (fun he => h (he.trans ha))
        have h2 : (k' == k) = false := beq_eq_false_iff_ne.mpr h
        simp only [List.map_cons]
        rw [if_pos (by simp [ha])]
        simp only [List.lookup, h1, h2]
        exact ih
      · simp only [List.map_cons]
        rw [if_neg (by simp [beq_eq_false_iff_ne.mpr ha])]
        simp only [List.lookup]
        cases k' == a.1
        · simpa using ih
        · rfl
  · rw [if_neg hd]
    exact lookup_append_single h v d

theorem fst_map_replace (k v : String) (d : List (String × String)) :
    (d.map (fun p => if p.1 == k then (k, v) else p)).map Prod.fst = d.map Prod.fst := by
  rw [List.map_map]
  refine List.map_congr_left ?_
  intro p _
  by_cases h : p.1 = k
  · simp [Function.comp, h]
  · simp [Function.comp, beq_eq_false_iff_ne.mpr h]

theorem any_key_congr (k : String) {d1 d2 : List (String × String)}
    (h : d1.map Prod.fst = d2.map Prod.fst) :
    d1.any (fun p => p.1 == k) = d2.any (fun p => p.1 == k) := by
  have key : ∀ d : List (String × String),
      d.any (fun p => p.1 == k) = (d.map Prod.fst).any (fun x => x == k) := by
    intro d
    induction d with
    | nil => rfl
    | cons a t ih => simp [List.any_cons, ih]
  rw [key, key, h]

theorem dinsert_keys (k v : String) (d : List (String × String)) :
    (dinsert k v d).map Prod.fst =
      if d.any (fun p => p.1 == k) then d.map Prod.fst else d.map Prod.fst ++ [k] := by
  unfold dinsert
  by_cases h : d.any (fun p => p.1 == k) = true
  · rw [if_pos h, if_pos h, fst_map_replace]
  · rw [if_neg h, if_neg h, List.map_append]
    rfl

theorem dinsert_keys_congr (k v1 v2 : String) {d1 d2 : List (String × String)}
    (h : d1.map Prod.fst = d2.map Prod.fst) :
    (dinsert k v1 d1).map Prod.fst = (dinsert k v2 d2).map Prod.fst := by
  rw [dinsert_keys, dinsert_keys, any_key_congr k h, h]

theorem dupdate_keys_congr : ∀ (kvs : List (String × String)) {d1 d2},
    d1.map Prod.fst = d2.map Prod.fst →
    (dupdate d1 kvs).map Prod.fst = (dupdate d2 kvs).map Prod.fst
  | [], _, _, h => h
  | a :: kvs, d1, d2, h => dupdate_keys_congr kvs (dinsert_keys_congr a.1 a.2 a.2 h)

theorem dinsert_lookup_congr (K k v : String) {d1 d2 : List (String × String)}
    (h : ∀ k', k' ≠ K → d1.lookup k' = d2.lookup k') :
    ∀ k', k' ≠ K → (dinsert k v d1).lookup k' = (dinsert k v d2).lookup k' := by
  intro k' hk
  by_cases he : k' = k
  · subst he
    rw [dinsert_lookup_self, dinsert_lookup_self]
  · rw [dinsert_lookup_other he, dinsert_lookup_other he]
    exact h k' hk

theorem dupdate_lookup_congr : ∀ (kvs : List (String × String)) (K : String)
    {d1 d2 : List (String × String)},
    (∀ k', k' ≠ K → d1.lookup k' = d2.lookup k') →
    ∀ k', k' ≠ K → (dupdate d1 kvs).lookup k' = (dupdate d2 kvs).lookup k'
  | [], _, _, _, h => h
  | a :: kvs, K, d1, d2, h => dupdate_lookup_congr kvs K (dinsert_lookup_congr K a.1 a.2 h)

theorem dinsert_nodup (k v : String) {d : List (String × String)}
    (h : (d.map Prod.fst).Nodup) : ((dinsert k v d).map Prod.fst).Nodup := by
  rw [dinsert_keys]
  by_cases ha : d.any (fun p => p.1 == k) = true
  · rwa [if_pos ha]
  · rw [if_neg ha]
    have hk : k ∉ d.map Prod.fst := by
      intro hm
      obtain ⟨p, hp, he⟩ := List.mem_map.mp hm
      exact ha (List.any_eq_true.mpr ⟨p, hp, by simp [he]⟩)
    simp [List.nodup_append, h, hk]

theorem dupdate_nodup : ∀ (kvs : List (String × String)) {d : List (String × String)},
    (d.map Prod.fst).Nodup → ((dupdate d kvs).map Prod.fst).Nodup
  | [], _, h => h
  | a :: kvs, d, h => dupdate_nodup kvs (dinsert_nodup a.1 a.2 h)

theorem lookup_mem_keys : ∀ {d : List (String × String)} {k v : String},
    d.lookup k = some v → k ∈ d.map Prod.fst
  | [], k, v, h => by simp [List.lookup] at h
  | a :: t, k, v, h => by
    simp only [List.lookup] at h
    cases hk : (k == a.1) with
    | true =>
      rw [eq_of_beq hk]
      exact List.mem_cons_self a.1 _
    | false =>
      rw [hk] at h
      exact List.mem_cons_of_mem a.1 (lookup_mem_keys h)

theorem amazonQuery_keys (cfg : AmazonCfg) (kwargs : List (String × String)) (ts1 ts2 : String) :
    (amazonQuery cfg ts1 kwargs).map Prod.fst = (amazonQuery cfg ts2 kwargs).map Prod.fst := by
  unfold amazonQuery
  have h0 : (([("Operation", cfg.operation), ("Service", "AWSECommerceService"),
      ("Timestamp", ts1), ("Version", cfg.version)] : List (String × String)).map Prod.fst) =
      (([("Operation", cfg.operation), ("Service", "AWSECommerceService"),
      ("Timestamp", ts2), ("Version", cfg.version)] : List (String × String)).map Prod.fst) := rfl
  have h1 := dupdate_keys_congr kwargs h0
  have h2 := dinsert_keys_congr "AWSAccessKeyId" cfg.aws_access_key_id cfg.aws_access_key_id h1
  have h3 := dinsert_keys_congr "Timestamp" ts1 ts2 h2
  cases cfg.associate_tag with
  | none => exact h3
  | some tag =>
    simp only []
    by_cases ht : tag = ""
    · rw [if_pos ht, if_pos ht]
      exact h3
    · rw [if_neg ht, if_neg ht]
      exact dinsert_keys_congr "AssociateTag" tag tag h3

theorem amazonQuery_lookup_ts (cfg : AmazonCfg) (kwargs : List (String × String)) (ts : String) :
    (amazonQuery cfg ts kwargs).lookup "Timestamp" = some ts := by
  unfold amazonQuery
  have h3 := dinsert_lookup_self "Timestamp" ts
    (dinsert "AWSAccessKeyId" cfg.aws_access_key_id
      (dupdate [("Operation", cfg.operation), ("Service", "AWSECommerceService"),
        ("Timestamp", ts), ("Version", cfg.version)] kwargs))
  cases cfg.associate_tag with
  | none => exact h3
  | some tag =>
    simp only []
    by_cases ht : tag = ""
    · rw [if_pos ht]
      exact h3
    · rw [if_neg ht]
      rw [dinsert_lookup_other (by decide : ("Timestamp" : String) ≠ "AssociateTag") tag]
      exact h3

theorem amazonQuery_lookup_congr (cfg : AmazonCfg) (kwargs : List (String × String))
    (ts1 ts2 : String) :
    ∀ k, k ≠ "Timestamp" →
    (amazonQuery cfg ts1 kwargs).lookup k = (amazonQuery cfg ts2 kwargs).lookup k := by
  unfold amazonQuery
  have h0 : ∀ k', k' ≠ "Timestamp" →
      (([("Operation", cfg.operation), ("Service", "AWSECommerceService"),
        ("Timestamp", ts1), ("Version", cfg.version)] : List (String × String)).lookup k') =
      (([("Operation", cfg.operation), ("Service", "AWSECommerceService"),
        ("Timestamp", ts2), ("Version", cfg.version)] : List (String × String)).lookup k') := by
    intro k' hk'
    have hb : (k' == "Timestamp") = false := beq_eq_false_iff_ne.mpr hk'
    simp only [List.lookup, hb]
  have h1 := dupdate_lookup_congr kwargs "Timestamp" h0
  have h2 := dinsert_lookup_congr "Timestamp" "AWSAccessKeyId" cfg.aws_access_key_id h1
  have h3 : ∀ k', k' ≠ "Timestamp" →
      (dinsert "Timestamp" ts1 (dinsert "AWSAccessKeyId" cfg.aws_access_key_id
        (dupdate [("Operation", cfg.operation), ("Service", "AWSECommerceService"),
          ("Timestamp", ts1), ("Version", cfg.version)] kwargs))).lookup k' =
      (dinsert "Timestamp" ts2 (dinsert "AWSAccessKeyId" cfg.aws_access_key_id
        (dupdate [("Operation", cfg.operation), ("Service", "AWSECommerceService"),
          ("Timestamp", ts2), ("Version", cfg.version)] kwargs))).lookup k' := by
    intro k' hk'
    rw [dinsert_lookup_other hk', dinsert_lookup_other hk']
    exact h2 k' hk'
  intro k hk
  cases cfg.associate_tag with
  | none => exact h3 k hk
  | some tag =>
    simp only []
    by_cases ht : tag = ""
    · rw [if_pos ht, if_pos ht]
      exact h3 k hk
    · rw [if_neg ht, if_neg ht]
      exact dinsert_lookup_congr "Timestamp" "AssociateTag" tag h3 k hk

theorem amazonQuery_nodup (cfg : AmazonCfg) (kwargs : List (String × String)) (ts : String) :
    ((amazonQuery cfg ts kwargs).map Prod.fst).Nodup := by
  unfold amazonQuery
  have h0 : ((([("Operation", cfg.operation), ("Service", "AWSECommerceService"),
      ("Timestamp", ts), ("Version", cfg.version)] : List (String × String)).map
        Prod.fst)).Nodup := by
    have : (([("Operation", cfg.operation), ("Service", "AWSECommerceService"),
        ("Timestamp", ts), ("Version", cfg.version)] : List (String × String)).map
          Prod.fst) = ["Operation", "Service", "Timestamp", "Version"] := rfl
    rw [this]
    decide
  have h1 := dupdate_nodup kwargs h0
  have h2 := dinsert_nodup "AWSAccessKeyId" cfg.aws_access_key_id h1
  have h3 := dinsert_nodup "Timestamp" ts h2
  cases cfg.associate_tag with
  | none => exact h3
  | some tag =>
    simp only []
    by_cases ht : tag = ""
    · rw [if_pos ht]
      exact h3
    · rw [if_neg ht]
      exact dinsert_nodup "AssociateTag" tag h3

theorem forall₂_map_same {α : Type} (l : List α) (f g : α → String)
    (h : ∀ x ∈ l, (f x).length = (g x).length) :
    List.Forall₂ (fun a b : String => a.length = b.length) (l.map f) (l.map g) := by
  induction l with
  | nil => exact .nil
  | cons x t ih =>
    exact .cons (h x (List.mem_cons_self x t))
      (ih fun y hy => h y (List.mem_cons_of_mem x hy))

theorem joinAmp_length_congr {l1 l2 : List String}
    (h : List.Forall₂ (fun a b : String => a.length = b.length) l1 l2) :
    (joinAmp l1).length = (joinAmp l2).length := by
  induction h with
  | nil => rfl
  | cons hxy ht ih =>
    cases ht with
    | nil => simpa [joinAmp] using hxy
    | cons h2 t2rel =>
      simp only [joinAmp, String.length_append] at ih ⊢
      omega

theorem joinAmp_inj : ∀ (l1 l2 : List String),
    List.Forall₂ (fun a b : String => a.length = b.length) l1 l2 →
    joinAmp l1 = joinAmp l2 → l1 = l2
  | [], [], _, _ => rfl
  | [], _ :: _, h, _ => by cases h
  | _ :: _, [], h, _ => by cases h
  | [a], [b], _, he => by simpa [joinAmp] using he
  | [a], b :: b2 :: t2, h, _ => by
    cases h with
    | cons _ ht => cases ht
  | a :: a2 :: t1, [b], h, _ => by
    cases h with
    | cons _ ht => cases ht
  | a :: a2 :: t1, b :: b2 :: t2, h, he => by
    cases h with
    | cons hab ht =>
      simp only [joinAmp] at he
      have hd := congrArg String.data he
      simp only [String.data_append, List.append_assoc] at hd
      have hlen : a.data.length = b.data.length := hab
      have t1eq : a.data = b.data := by
        have tk := congrArg (List.take a.data.length) hd
        rw [List.take_left] at tk
        rw [hlen, List.take_left] at tk
        exact tk
      have hrest := hd
      rw [t1eq] at hrest
      have hrest3 := List.append_cancel_left (List.append_cancel_left hrest)
      have htail : joinAmp (a2 :: t1) = joinAmp (b2 :: t2) := strExt hrest3
      rw [strExt t1eq, joinAmp_inj (a2 :: t1) (b2 :: t2) ht htail]

/-- C6: for a fixed operation, region and parameter mapping, the cache URL is
identical at any two clock readings, while two request URLs built at
wall-clock instants with different formatted timestamps are different
strings: the cache key embeds neither timestamp nor signature, and the
request URL embeds a fresh timestamp (and signature). -/
theorem cacheUrl_stable_apiUrl_fresh (cfg : AmazonCfg) (kwargs : List (String × String))
    (ts1 ts2 : String) (h1 : isTsFormat ts1 = true) (h2 : isTsFormat ts2 = true)
    (hne : ts1 ≠ ts2) (hv : String × String)
    (hreg : SERVICE_DOMAINS.lookup cfg.region = some hv) :
    cache_url cfg ts1 kwargs = cache_url cfg ts2 kwargs ∧
    api_url cfg ts1 kwargs ≠ api_url cfg ts2 kwargs := by
  refine ⟨rfl, ?_⟩
  have hkeys := amazonQuery_keys cfg kwargs ts1 ts2
  have e1 : lookupD (amazonQuery cfg ts1 kwargs) "Timestamp" = ts1 := by
    rw [lookupD, amazonQuery_lookup_ts]
    rfl
  have e2 : lookupD (amazonQuery cfg ts2 kwargs) "Timestamp" = ts2 := by
    rw [lookupD, amazonQuery_lookup_ts]
    rfl
  have hlenpt : ∀ k ∈ sortKeys ((amazonQuery cfg ts1 kwargs).map Prod.fst),
      (k ++ "=" ++ pyQuote [126] (lookupD (amazonQuery cfg ts1 kwargs) k)).length =
      (k ++ "=" ++ pyQuote [126] (lookupD (amazonQuery cfg ts2 kwargs) k)).length := by
    intro k _
    by_cases hkt : k = "Timestamp"
    · subst hkt
      rw [e1, e2]
      simp only [String.length_append]
      rw [tsQuote_len h1 h2]
    · rw [lookupD, lookupD, amazonQuery_lookup_congr cfg kwargs ts1 ts2 k hkt]
  have hfor := forall₂_map_same (sortKeys ((amazonQuery cfg ts1 kwargs).map Prod.fst))
      (fun k => k ++ "=" ++ pyQuote [126] (lookupD (amazonQuery cfg ts1 kwargs) k))
      (fun k => k ++ "=" ++ pyQuote [126] (lookupD (amazonQuery cfg ts2 kwargs) k)) hlenpt
  have hq2 : quote_query (amazonQuery cfg ts2 kwargs) =
      joinAmp ((sortKeys ((amazonQuery cfg ts1 kwargs).map Prod.fst)).map
        (fun k => k ++ "=" ++ pyQuote [126] (lookupD (amazonQuery cfg ts2 kwargs) k))) := by
    unfold quote_query
    rw [hkeys]
  have hqlen : (quote_query (amazonQuery cfg ts1 kwargs)).length =
      (quote_query (amazonQuery cfg ts2 kwargs)).length := by
    rw [hq2]
    exact joinAmp_length_congr hfor
  have hqne : quote_query (amazonQuery cfg ts1 kwargs) ≠
      quote_query (amazonQuery cfg ts2 kwargs) := by
    intro hq
    rw [hq2] at hq
    have hmaps := joinAmp_inj _ _ hfor hq
    have hmem : "Timestamp" ∈ sortKeys ((amazonQuery cfg ts1 kwargs).map Prod.fst) :=
      ((sortKeys_perm _).mem_iff).mpr
        (lookup_mem_keys (amazonQuery_lookup_ts cfg kwargs ts1))
    have hT := List.map_eq_map_iff.mp hmaps "Timestamp" hmem
    rw [e1, e2] at hT
    have hd := congrArg String.data hT
    simp only [String.data_append] at hd
    exact tsQuote_inj h1 h2 hne (strExt (List.append_cancel_left hd))
  intro heq
  simp only [api_url, serviceDomain0, hreg, Option.map_some'] at heq
  have hu := Option.some.inj heq
  have hd := congrArg String.data hu
  simp only [String.data_append, List.append_assoc] at hd
  have hd2 := List.append_cancel_left (List.append_cancel_left (List.append_cancel_left hd))
  have hq : (quote_query (amazonQuery cfg ts1 kwargs)).data =
      (quote_query (amazonQuery cfg ts2 kwargs)).data := by
    have tk := congrArg (List.take (quote_query (amazonQuery cfg ts1 kwargs)).data.length) hd2
    rw [List.take_left] at tk
    have hl : (quote_query (amazonQuery cfg ts1 kwargs)).data.length =
        (quote_query (amazonQuery cfg ts2 kwargs)).data.length := hqlen
    rw [hl, List.take_left] at tk
    exact tk
  exact hqne (strExt hq)

/-- Witness for C6 at concrete timestamps one second apart. -/
theorem cacheUrl_stable_apiUrl_fresh_witness :
    isTsFormat "2014-08-01T00:00:00Z" = true ∧
    isTsFormat "2014-08-01T00:00:01Z" = true ∧
    ("2014-08-01T00:00:00Z" : String) ≠ "2014-08-01T00:00:01Z" ∧
    SERVICE_DOMAINS.lookup acfgDemo.region =
      some ("webservices.amazon.com", "xml-us.amznxslt.com") ∧
    cache_url acfgDemo "2014-08-01T00:00:00Z" [("Keywords", "lean")] =
      cache_url acfgDemo "2014-08-01T00:00:01Z" [("Keywords", "lean")] ∧
    api_url acfgDemo "2014-08-01T00:00:00Z" [("Keywords", "lean")] ≠
      api_url acfgDemo "2014-08-01T00:00:01Z" [("Keywords", "lean")] := by
  have h := cacheUrl_stable_apiUrl_fresh acfgDemo [("Keywords", "lean")]
    "2014-08-01T00:00:00Z" "2014-08-01T00:00:01Z" (by decide) (by decide) (by decide)
    ("webservices.amazon.com", "xml-us.amznxslt.com") (by decide)
  exact ⟨by decide, by decide, by decide, by decide, h.1, h.2⟩

/-- Witness for the amended C3 at a concrete non-cache-hit run. -/
theorem dispatch_order_witness :
    cacheMiss cfgPlain "k" ∧
    allBefore isBuildCacheEv isCacheReadEv (invoke cfgPlain "k" "a" wOk none).2.1 = true ∧
    allBefore isCacheReadEv isBuildApiEv (invoke cfgPlain "k" "a" wOk none).2.1 = true ∧
    allBefore isBuildApiEv isRateEv (invoke cfgPlain "k" "a" wOk none).2.1 = true ∧
    allBefore isRateEv isNetEv (invoke cfgPlain "k" "a" wOk none).2.1 = true ∧
    allBefore isNetEv isCacheWriteEv (invoke cfgPlain "k" "a" wOk none).2.1 = true := by
  have hm : cacheMiss cfgPlain "k" := fun r h => by simp [cfgPlain] at h
  have h := dispatch_order cfgPlain "k" "a" wOk none hm
  exact ⟨hm, h.1, h.2.1, h.2.2.1, h.2.2.2.1, h.2.2.2.2⟩
